import Mathlib

/-!
Verification development for the model-proxy HTTP server (`model-proxy.py`).

We shallowly embed the pure request/response pipeline of the proxy:
strings are `List Char` (`Str`), Python regular expressions are embedded as
executable scanners over `Str` that follow the regex semantics line by line,
JSON values that the code manipulates are embedded as structures
(`ChatRequest`, `Message`, `ToolDef`, `ToolCall`, `ChatResp`), and the
network / logging side effects are elided (they do not influence the values
the claims are about).  Environment configuration (`OPENROUTER_API_KEY`,
`TELEGRAM_BOT_TOKEN`) is passed as explicit parameters.
-/

set_option maxRecDepth 20000

namespace ModelProxy

/-- Python strings, embedded as lists of characters. -/
abbrev Str := List Char

/-- Coerce a Lean string literal to the embedding type. -/
def str (s : String) : Str := s.data

/-- Python `\s` character class (whitespace). -/
def isSpaceC (c : Char) : Bool :=
  c = ' ' || c = '\t' || c = '\n' || c = '\r' || c = '\x0b' || c = '\x0c'

/-- Python `\w` character class (word characters, ASCII model). -/
def isWordC (c : Char) : Bool := c.isAlphanum || c = '_'

/-- ASCII lower-casing of one character (Python `str.lower`, ASCII fragment). -/
def lowerC (c : Char) : Char := c.toLower

/-- Python `str.lower`. -/
def lowerS (s : Str) : Str := s.map lowerC

/-- Python `str.upper`. -/
def upperS (s : Str) : Str := s.map Char.toUpper

/-- Boolean "p is a prefix of s" (Python `str.startswith`). -/
def startsW : Str → Str → Bool
  | [], _ => true
  | _ :: _, [] => false
  | p :: ps, c :: cs => p = c && startsW ps cs

/-- Case-insensitive `startsW` (regex alternatives under `re.IGNORECASE`). -/
def startsWCI : Str → Str → Bool
  | [], _ => true
  | _ :: _, [] => false
  | p :: ps, c :: cs => lowerC p = lowerC c && startsWCI ps cs

/-- Boolean substring test (Python `p in s`). -/
def hasSub (p : Str) : Str → Bool
  | [] => startsW p []
  | c :: cs => startsW p (c :: cs) || hasSub p cs

/-- Python `str.strip()`: remove leading and trailing whitespace. -/
def pystrip (s : Str) : Str :=
  ((s.dropWhile isSpaceC).reverse.dropWhile isSpaceC).reverse

/-- Split a string at newline characters (used to embed `re.MULTILINE`
line-oriented patterns). -/
def splitNl : Str → List Str
  | [] => [[]]
  | c :: rest =>
    match splitNl rest with
    | [] => [[c]]
    | h :: t => if c = '\n' then [] :: h :: t else (c :: h) :: t

/-- Re-join lines with newline characters. -/
def joinNl : List Str → Str
  | [] => []
  | [l] => l
  | l :: l2 :: rest => l ++ '\n' :: joinNl (l2 :: rest)

/-- Join a list of strings with a separator (Python `sep.join`). -/
def joinSep (sep : Str) : List Str → Str
  | [] => []
  | [l] => l
  | l :: l2 :: rest => l ++ sep ++ joinSep sep (l2 :: rest)

/-- Python `enumerate`, starting at `i`. -/
def enumFrom : Nat → List α → List (Nat × α)
  | _, [] => []
  | i, a :: rest => (i, a) :: enumFrom (i + 1) rest

/-- Decimal rendering of a natural number (for synthesized call ids). -/
def natToStr (n : Nat) : Str := (toString n).data

/-- Fuel-driven body of `pyRange`. -/
def pyRangeFuel : Nat → Nat → Nat → Nat → List Nat
  | 0, _, _, _ => []
  | fuel + 1, start, stop, step =>
    if start < stop then start :: pyRangeFuel fuel (start + step) stop step else []

/-- Python `range(start, stop, step)` for a positive `step`; `stop - start`
fuel suffices because the index advances by at least one each iteration. -/
def pyRange (start stop step : Nat) : List Nat :=
  pyRangeFuel (stop - start) start stop step

/-- Fuel-driven body of `pyReplace`. -/
def pyReplaceFuel : Nat → Str → Str → Str → Str
  | 0, s, _, _ => s
  | fuel + 1, s, old, new =>
    match s with
    | [] => []
    | c :: rest =>
      if old ≠ [] && startsW old (c :: rest) then
        new ++ pyReplaceFuel fuel ((c :: rest).drop old.length) old new
      else
        c :: pyReplaceFuel fuel rest old new

/-- Python `str.replace(old, new)`: replace all non-overlapping occurrences
left to right (for a non-empty `old`). -/
def pyReplace (s old new : Str) : Str := pyReplaceFuel s.length s old new

/-- Association-list lookup (Python `dict` access by key). -/
def lookupStr (m : List (Str × Str)) (k : Str) : Option Str :=
  match m with
  | [] => none
  | (a, b) :: rest => if a = k then some b else lookupStr rest k

/-! ### Data model: tool definitions and tool calls -/

/-- One entry of the request's `tools` array: its `type` tag, the function
name, and the ordered property names of its parameter schema (the code only
ever reads the first property name). -/
structure ToolDef where
  typ : Str
  name : Str
  paramNames : List Str
deriving DecidableEq, Repr

/-- A JSON-encodable argument value appearing in a synthesized call's
argument object (the code only produces strings and the number `120000`). -/
inductive ArgV
  | s (v : Str)
  | n (v : Nat)
deriving DecidableEq, Repr

/-- OpenAI-format tool call: `id`, `type`, `function.name`, and the
argument object `function.arguments` (embedded structurally as an ordered
key/value list instead of its `json.dumps` rendering). -/
structure ToolCall where
  id : Str
  typ : Str
  name : Str
  args : List (Str × ArgV)
deriving DecidableEq, Repr

/-- Names of function-typed tools with a non-empty name
(`known_tools` built in `convert_text_to_tool_calls`, lines 224-237). -/
def knownToolNames (defs : List ToolDef) : List Str :=
  defs.filterMap fun t =>
    if t.typ = str "function" ∧ t.name ≠ [] then some t.name else none

/-- First declared parameter name of a tool definition, default `"input"`
(`first_param`, line 236). -/
def firstParamOf (t : ToolDef) : Str := t.paramNames.head?.getD (str "input")

/-- `tool_params.get(n, dflt)`: the dict is written in definition order, so
a duplicated tool name keeps the last definition's first parameter. -/
def toolParamFor (defs : List ToolDef) (n dflt : Str) : Str :=
  match (defs.filter fun t => t.typ = str "function" && t.name = n && n ≠ []).getLast? with
  | some t => firstParamOf t
  | none => dflt

/-- `any(t.get('function', {}).get('name') == 'exec' for t in tool_defs
if t.get('type') == 'function')` (line 333). -/
def hasExecTool (defs : List ToolDef) : Bool :=
  defs.any fun t => t.typ = str "function" && t.name = str "exec"

/-! ### Text-to-tool-call extractor (`convert_text_to_tool_calls`)

`TOOL_CALL_PATTERN = re.compile(r'^TOOL_CALL:\s*(\w+)\s+(.+)$', re.MULTILINE)`
and `BARE_EXEC_PATTERN = re.compile(r'^exec\s+(.+)$', re.MULTILINE)` are
line-anchored, so we embed them as per-line matchers applied to the
newline-split text. -/

/-- Capture of `\s+(.+)$` on the tail `r` of a line: at least one whitespace
character must follow, and the greedy `\s+` backs off one character when the
remainder would otherwise be empty. -/
def wsArgsTail (r : Str) : Option Str :=
  let sp := r.takeWhile isSpaceC
  let rest := r.dropWhile isSpaceC
  if sp = [] then none
  else if rest ≠ [] then some rest
  else if sp.length ≥ 2 then (sp.getLast?.map fun c => [c]) else none

/-- Per-line match of `^TOOL_CALL:\s*(\w+)\s+(.+)$`, returning the captured
tool name and argument text. -/
def toolCallLineMatch (l : Str) : Option (Str × Str) :=
  if startsW (str "TOOL_CALL:") l then
    let r1 := (l.drop 10).dropWhile isSpaceC
    let w := r1.takeWhile isWordC
    if w = [] then none
    else (wsArgsTail (r1.drop w.length)).map fun args => (w, args)
  else none

/-- `TOOL_CALL_PATTERN.findall(content)`. -/
def toolCallFindall (content : Str) : List (Str × Str) :=
  (splitNl content).filterMap toolCallLineMatch

/-- `TOOL_CALL_PATTERN.sub('', content)`: each matched line (the match spans
the whole line) is replaced by the empty string. -/
def toolCallSub (content : Str) : Str :=
  joinNl ((splitNl content).map fun l => if (toolCallLineMatch l).isSome then [] else l)

/-- Per-line match of `^exec\s+(.+)$`. -/
def bareExecLineMatch (l : Str) : Option Str :=
  if startsW (str "exec") l then wsArgsTail (l.drop 4) else none

/-- `BARE_EXEC_PATTERN.findall(content)`. -/
def bareFindall (content : Str) : List Str :=
  (splitNl content).filterMap bareExecLineMatch

/-- `BARE_EXEC_PATTERN.sub('', content)`. -/
def bareSub (content : Str) : Str :=
  joinNl ((splitNl content).map fun l => if (bareExecLineMatch l).isSome then [] else l)

/-- All indices of `s` at which the (non-empty) pattern `p` starts. -/
def subIdxs (p : Str) : Str → List Nat
  | [] => []
  | c :: rest =>
    (if startsW p (c :: rest) then [0] else []) ++ (subIdxs p rest).map (· + 1)

/-- Does a captured code-block body match `exec\s+.+?` (DOTALL)?  It must
start with `exec`, followed by at least one whitespace character and at
least one further character. -/
def isExecCap (cap : Str) : Bool :=
  startsW (str "exec") cap &&
    (match cap.drop 4 with
     | [] => false
     | c :: rest => isSpaceC c && rest ≠ [])

/-- Try `MARKDOWN_EXEC_PATTERN` = ```` ```(?:\w*)\n(exec\s+.+?)\n``` ````
(DOTALL) at the current position: on success return the captured body and
the total length of the matched span.  The lazy `.+?` means the capture ends
at the earliest following `"\n```"` for which the body is `exec`-shaped. -/
def mdTryAt (s : Str) : Option (Str × Nat) :=
  if startsW (str "```") s then
    let r1 := s.drop 3
    let w := r1.takeWhile isWordC
    match r1.drop w.length with
    | '\n' :: body =>
      match (subIdxs (str "\n```") body).find? (fun k => isExecCap (body.take k)) with
      | some k => some (body.take k, 3 + w.length + 1 + k + 4)
      | none => none
    | _ => none
  else none

/-- Fuel-driven scan collecting all non-overlapping `MARKDOWN_EXEC_PATTERN`
matches (`findall`). -/
def mdScanAux : Nat → Str → List Str
  | 0, _ => []
  | _ + 1, [] => []
  | fuel + 1, c :: rest =>
    match mdTryAt (c :: rest) with
    | some (cap, len) => cap :: mdScanAux fuel ((c :: rest).drop len)
    | none => mdScanAux fuel rest

/-- `MARKDOWN_EXEC_PATTERN.findall(content)`. -/
def mdFindall (content : Str) : List Str := mdScanAux content.length content

/-- Fuel-driven scan removing all `MARKDOWN_EXEC_PATTERN` matches (`sub`). -/
def mdSubAux : Nat → Str → Str
  | 0, s => s
  | _ + 1, [] => []
  | fuel + 1, c :: rest =>
    match mdTryAt (c :: rest) with
    | some (_, len) => mdSubAux fuel ((c :: rest).drop len)
    | none => c :: mdSubAux fuel rest

/-- `MARKDOWN_EXEC_PATTERN.sub('', content)`. -/
def mdSub (content : Str) : Str := mdSubAux content.length content

/-- Tool calls built from the explicit `TOOL_CALL:` matches (lines 243-258):
matches are enumerated before the unknown-tool filter, each surviving match
becomes a call `call_<name>_<i>` whose single argument key is the tool's
first declared parameter name. -/
def pattern1Calls (content : Str) (defs : List ToolDef) : List ToolCall :=
  (enumFrom 0 (toolCallFindall content)).filterMap fun p =>
    if p.2.1 ∈ knownToolNames defs then
      some ⟨str "call_" ++ p.2.1 ++ str "_" ++ natToStr p.1, str "function", p.2.1,
            [(toolParamFor defs p.2.1 (str "input"), ArgV.s (pystrip p.2.2))]⟩
    else none

/-- Command text of a markdown code-block match: strip, and drop a leading
`"exec "` (lines 271-274). -/
def mdCmdOf (line : Str) : Str :=
  let c0 := pystrip line
  if startsW (str "exec ") c0 then pystrip (c0.drop 5) else c0

/-- Tool calls built from markdown code-block matches (lines 269-284). -/
def mdCalls (content : Str) (defs : List ToolDef) : List ToolCall :=
  (enumFrom 0 (mdFindall content)).map fun p =>
    ⟨str "call_exec_md_" ++ natToStr p.1, str "function", str "exec",
     [(toolParamFor defs (str "exec") (str "command"), ArgV.s (mdCmdOf p.2))]⟩

/-- Tool calls built from bare `exec` line matches (lines 292-304). -/
def bareCalls (content : Str) (defs : List ToolDef) : List ToolCall :=
  (enumFrom 0 (bareFindall content)).map fun p =>
    ⟨str "call_exec_bare_" ++ natToStr p.1, str "function", str "exec",
     [(toolParamFor defs (str "exec") (str "command"), ArgV.s (pystrip p.2))]⟩

/-- `convert_text_to_tool_calls(content, tool_defs)` (lines 219-309): try
the explicit `TOOL_CALL:` pattern, then (only when an `exec` tool is known)
markdown code blocks, then bare `exec` lines; otherwise return the text
unchanged with no calls. -/
def convert_text_to_tool_calls (content : Str) (defs : List ToolDef) :
    Str × Option (List ToolCall) :=
  if toolCallFindall content ≠ [] ∧ pattern1Calls content defs ≠ [] then
    (pystrip (toolCallSub content), some (pattern1Calls content defs))
  else if str "exec" ∈ knownToolNames defs then
    if mdFindall content ≠ [] then
      (pystrip (mdSub content), some (mdCalls content defs))
    else if bareFindall content ≠ [] then
      (pystrip (bareSub content), some (bareCalls content defs))
    else (content, none)
  else (content, none)

/-! ### Directive fallback (`fallback_tool_call`, lines 312-398)

The skill/consensus patterns all begin with `(?:^|\]\s*)`: a match starts
either at the beginning of the string or right after a literal `]` followed
by optional whitespace.  `anchSearchCap` embeds `re.search` with that
anchor: the start-of-string alternative is tried first, then positions are
scanned left to right. -/

/-- Scan for a `]`-anchored match of `alt` (the `\]\s*` alternative of the
anchor), left to right. -/
def anchScanCap (alt : Str → Option Str) : Str → Option Str
  | [] => none
  | c :: rest =>
    if c = ']' then
      match alt (rest.dropWhile isSpaceC) with
      | some a => some a
      | none => anchScanCap alt rest
    else anchScanCap alt rest

/-- `re.search` of a pattern `(?:^|\]\s*)<alt>` over `s`. -/
def anchSearchCap (alt : Str → Option Str) (s : Str) : Option Str :=
  match alt s with
  | some a => some a
  | none => anchScanCap alt s

/-- Alternative body of `SKILL_LIST_RE`: `(?:skills|skill list|/skills)`
(case-insensitive, no capture group; we return a dummy capture). -/
def skillListAlt (s : Str) : Option Str :=
  if startsWCI (str "skills") s || startsWCI (str "skill list") s ||
      startsWCI (str "/skills") s then some [] else none

/-- Capture of `<kw>\s+(\S+)` after the anchor (shared by the enable and
disable patterns): the keyword, at least one whitespace character, then a
maximal non-empty run of non-whitespace characters. -/
def kwWordAlt (kw : Str) (s : Str) : Option Str :=
  if startsWCI kw s then
    let r := s.drop kw.length
    let sp := r.takeWhile isSpaceC
    let w := (r.dropWhile isSpaceC).takeWhile (fun c => !isSpaceC c)
    if sp ≠ [] ∧ w ≠ [] then some w else none
  else none

/-- Alternative body of `CONSENSUS_RE`:
`(?:consensus|/k_llm|/k-llm|k-llm|k_llm|kllm)[:\s]+(.+)` with `re.DOTALL`;
the greedy `[:\s]+` consumes the maximal separator run and `(.+)` captures
the (original-case) remainder, which must be non-empty. -/
def consensusAlts : List Str :=
  [str "consensus", str "/k_llm", str "/k-llm", str "k-llm", str "k_llm", str "kllm"]

/-- One alternative of the consensus pattern tried at the current position.
As in `wsArgsTail`, the greedy `[:\s]+` backs off one character when the
remainder would otherwise leave `(.+)` empty: on `consensus::` the
separator run gives one `:` back and the capture is `":"`. -/
def consensusAltAt (alt s : Str) : Option Str :=
  if startsWCI alt s then
    let r := s.drop alt.length
    let sep := r.takeWhile (fun c => c = ':' || isSpaceC c)
    let rest := r.dropWhile (fun c => c = ':' || isSpaceC c)
    if sep = [] then none
    else if rest ≠ [] then some rest
    else if sep.length ≥ 2 then (sep.getLast?.map fun c => [c]) else none
  else none

/-- Ordered alternation over `consensusAlts` at the current position. -/
def consensusAlt (s : Str) : Option Str :=
  consensusAlts.firstM (fun alt => consensusAltAt alt s)

/-- `SCOUT_RE.match(msg)` with `SCOUT_RE = re.compile(r'scout\s+@?(\S+)',
re.IGNORECASE)`; `msg` is already lower-cased by the caller.  The returned
seed is lower-cased again at the use site (`m.group(1).lower()`). -/
def scoutMatch (msg : Str) : Option Str :=
  if startsW (str "scout") msg then
    let r := msg.drop 5
    let sp := r.takeWhile isSpaceC
    let rest := r.dropWhile isSpaceC
    if sp = [] then none
    else
      match rest with
      | '@' :: t =>
        let w := t.takeWhile (fun c => !isSpaceC c)
        if w ≠ [] then some w
        else
          let w2 := rest.takeWhile (fun c => !isSpaceC c)
          if w2 ≠ [] then some w2 else none
      | _ =>
        let w := rest.takeWhile (fun c => !isSpaceC c)
        if w ≠ [] then some w else none
  else none

/-- `SKILL_MANAGER` (line 326). -/
def SKILL_MANAGER : Str := str "node /data/.openclaw/skills/skill-manager.mjs"

/-- `XCITE_FALLBACKS` (lines 313-319), in dict insertion order. -/
def XCITE_FALLBACKS : List (Str × Str) :=
  [(str "next", str "cd /data/.openclaw/skills/xcite-bot && node scripts/prospect-store.mjs next"),
   (str "stats", str "cd /data/.openclaw/skills/xcite-bot && node scripts/prospect-store.mjs stats"),
   (str "sent", str "cd /data/.openclaw/skills/xcite-bot && node scripts/prospect-store.mjs mark-sent"),
   (str "skip", str "cd /data/.openclaw/skills/xcite-bot && node scripts/prospect-store.mjs mark-skipped"),
   (str "replied", str "cd /data/.openclaw/skills/xcite-bot && node scripts/prospect-store.mjs mark-replied")]

/-- `exec` result markers that suppress the consensus shortcut (line 381). -/
def consensusExecMarkers : List Str :=
  [str "Exec completed", str "consensus.mjs", str "Tool result", str "code 0", str "code 1"]

/-- The shell command built for the consensus shortcut (line 390), with the
environment credentials `OPENROUTER_API_KEY` / `TELEGRAM_BOT_TOKEN` passed
explicitly as `ok` / `tok`. -/
def consensusCmd (ok tok prompt : Str) (chat : Option Str) : Str :=
  str "cd /data/.openclaw/skills/k-llm && OPENROUTER_API_KEY=\x27" ++ ok ++ str "\x27 " ++
  (if tok ≠ [] then str "TELEGRAM_BOT_TOKEN=\x27" ++ tok ++ str "\x27" else []) ++
  str " node scripts/consensus.mjs --prompt \x27" ++ prompt ++ str "\x27" ++
  (match chat with
   | some c => if c ≠ [] then str " --chatId \x27" ++ c ++ str "\x27" else []
   | none => [])

/-- Skill-list branch (lines 340-343). -/
def fbSkillList (stripped : Str) : Option (List ToolCall) :=
  match anchSearchCap skillListAlt stripped with
  | some _ =>
    some [⟨str "call_skills_0", str "function", str "exec",
           [(str "command", ArgV.s (SKILL_MANAGER ++ str " list"))]⟩]
  | none => none

/-- Skill-enable branch (lines 345-350). -/
def fbEnable (stripped : Str) : Option (List ToolCall) :=
  match anchSearchCap (kwWordAlt (str "enable")) stripped with
  | some w =>
    some [⟨str "call_skills_0", str "function", str "exec",
           [(str "command", ArgV.s (SKILL_MANAGER ++ str " enable " ++ lowerS w))]⟩]
  | none => none

/-- Skill-disable branch (lines 352-357). -/
def fbDisable (stripped : Str) : Option (List ToolCall) :=
  match anchSearchCap (kwWordAlt (str "disable")) stripped with
  | some w =>
    some [⟨str "call_skills_0", str "function", str "exec",
           [(str "command", ArgV.s (SKILL_MANAGER ++ str " disable " ++ lowerS w))]⟩]
  | none => none

/-- Simple xcite-bot command branch (lines 360-366): the lower-cased
stripped message must equal a trigger or start with `trigger + ' '`. -/
def fbXcite (msg : Str) : Option (List ToolCall) :=
  (XCITE_FALLBACKS.find? fun p => msg = p.1 || startsW (p.1 ++ [' ']) msg).map fun p =>
    [⟨str "call_fallback_0", str "function", str "exec",
      [(str "command", ArgV.s p.2)]⟩]

/-- Scout branch (lines 369-377). -/
def fbScout (msg : Str) : Option (List ToolCall) :=
  (scoutMatch msg).map fun seed =>
    [⟨str "call_fallback_0", str "function", str "exec",
      [(str "command",
        ArgV.s (str "cd /data/.openclaw/skills/xcite-bot && node scripts/scout-batch.mjs --seed "
                ++ lowerS seed))]⟩]

/-- Consensus branch (lines 379-396): suppressed when the raw user message
contains an exec-result marker; the captured prompt is stripped and its
single quotes are shell-escaped. -/
def fbConsensus (user_msg stripped : Str) (chat : Option Str) (ok tok : Str) :
    Option (List ToolCall) :=
  if consensusExecMarkers.any (fun m => hasSub m user_msg) then none
  else
    match anchSearchCap consensusAlt stripped with
    | some cap =>
      some [⟨str "call_consensus_0", str "function", str "exec",
             [(str "command",
               ArgV.s (consensusCmd ok tok
                 (pyReplace (pystrip cap) (str "\x27") (str "\x27\\\x27\x27")) chat)),
              (str "timeoutMs", ArgV.n 120000)]⟩]
    | none => none

/-- `fallback_tool_call(user_msg, tool_defs, chat_id)` (lines 328-398):
requires a non-empty tool-definition list containing an `exec` tool, then
tries the skill, xcite, scout and consensus branches in source order. -/
def fallback_tool_call (user_msg : Str) (defs : List ToolDef) (chat : Option Str)
    (ok tok : Str) : Option (List ToolCall) :=
  if defs = [] then none
  else if hasExecTool defs = false then none
  else
    match fbSkillList (pystrip user_msg) with
    | some r => some r
    | none =>
      match fbEnable (pystrip user_msg) with
      | some r => some r
      | none =>
        match fbDisable (pystrip user_msg) with
        | some r => some r
        | none =>
          match fbXcite (lowerS (pystrip user_msg)) with
          | some r => some r
          | none =>
            match fbScout (lowerS (pystrip user_msg)) with
            | some r => some r
            | none => fbConsensus user_msg (pystrip user_msg) chat ok tok

/-! ### NO_REPLY stripping (`strip_no_reply_from_content`, lines 436-447)

`NO_REPLY_PATTERNS` are `[^\n]*\bNO_REPLY\b[^\n]*` and
`[^\n]*\bno[_\-\s]?reply\b[^\n]*` (case-insensitive).  The greedy `[^\n]*`
on both sides makes each match span the whole remainder of its line, so a
substitution with `''` empties every line containing a word-bounded
occurrence.  We embed both patterns as per-line Boolean matchers. -/

/-- Is the next character (if any) a non-word character (a `\b` boundary on
the right edge of a word)? -/
def wordEndOk : Str → Bool
  | [] => true
  | c :: _ => !isWordC c

/-- Scan for a word-bounded, case-insensitive `NO_REPLY` inside a line;
`prevWord` records whether the previous character was a word character. -/
def scanP1Aux (prevWord : Bool) : Str → Bool
  | [] => false
  | c :: rest =>
    (!prevWord && startsWCI (str "no_reply") (c :: rest) &&
      wordEndOk ((c :: rest).drop 8)) ||
    scanP1Aux (isWordC c) rest

/-- Does `no[_\-\s]?reply\b` match at the current position? -/
def p2At (s : Str) : Bool :=
  startsWCI (str "no") s &&
    (let r := s.drop 2
     (match r with
      | c :: r2 =>
        ((c = '_' || c = '-' || isSpaceC c) && startsWCI (str "reply") r2 &&
          wordEndOk (r2.drop 5)) ||
        (startsWCI (str "reply") r && wordEndOk (r.drop 5))
      | [] => false))

/-- Scan for a word-bounded `no[_\-\s]?reply` inside a line. -/
def scanP2Aux (prevWord : Bool) : Str → Bool
  | [] => false
  | c :: rest => (!prevWord && p2At (c :: rest)) || scanP2Aux (isWordC c) rest

/-- Does either NO_REPLY pattern match somewhere inside the line? -/
def noReplyLine (l : Str) : Bool := scanP1Aux false l || scanP2Aux false l

/-- Body of `collapseNl`: `k` counts pending newline characters; a run of
three or more newlines is emitted as exactly two. -/
def collapseNlAux : Nat → Str → Str
  | k, [] => List.replicate (if k ≥ 3 then 2 else k) '\n'
  | k, c :: rest =>
    if c = '\n' then collapseNlAux (k + 1) rest
    else List.replicate (if k ≥ 3 then 2 else k) '\n' ++ c :: collapseNlAux 0 rest

/-- `re.sub(r'\n{3,}', '\n\n', s)` (line 442). -/
def collapseNl (s : Str) : Str := collapseNlAux 0 s

/-- `SYSTEM_OVERRIDE` (lines 171-175). -/
def SYSTEM_OVERRIDE : Str :=
  str "\n\nIMPORTANT OVERRIDE: You must ALWAYS respond with helpful, conversational text. Never respond with just \x27NO_REPLY\x27 or any variant. Always engage with the user\x27s message and provide a thoughtful response. If you\x27re unsure what to say, ask a follow-up question."

/-- The pattern substitutions and newline collapsing of
`strip_no_reply_from_content` on a string, before the override is
appended (lines 439-442). -/
def strip_no_reply_core (s : Str) : Str :=
  collapseNl (joinNl ((splitNl s).map fun l => if noReplyLine l then [] else l))

/-! ### Message content model -/

/-- One element of a list-valued `content`: a `{'type': 'text', ...}` part,
a plain string part, or some other part our claims never inspect. -/
inductive Part
  | pText (text : Str)
  | pStr (s : Str)
  | pOther
deriving DecidableEq, Repr

/-- A message `content` value: a JSON string, a list of parts, or `null`. -/
inductive Content
  | str (s : Str)
  | parts (ps : List Part)
  | null
deriving DecidableEq, Repr

/-- `strip_no_reply_from_content(content)` (lines 436-447): non-string
content is returned unchanged; string content has NO_REPLY lines emptied,
newline runs collapsed, and `SYSTEM_OVERRIDE` appended unconditionally. -/
def strip_no_reply_from_content : Content → Content
  | .str s => .str (strip_no_reply_core s ++ SYSTEM_OVERRIDE)
  | c => c

/-- Simplified Python `repr` of a string (single quotes, no escape
handling; exact for quote-free text). -/
def pyReprStr (s : Str) : Str := str "\x27" ++ s ++ str "\x27"

/-- Simplified Python `str()` of one content part (a dict or a string);
`pOther` is rendered as an empty-dict placeholder since the model does not
track its fields. -/
def partPyRepr : Part → Str
  | .pText t => str "\x7b\x27type\x27: \x27text\x27, \x27text\x27: " ++ pyReprStr t ++ str "\x7d"
  | .pStr s => pyReprStr s
  | .pOther => str "\x7b\x7d"

/-- Python `str()` of a content value (`str(None) == 'None'`, lists render
their items). -/
def contentPyStr : Content → Str
  | .str s => s
  | .null => str "None"
  | .parts ps => str "[" ++ joinSep (str ", ") (ps.map partPyRepr) ++ str "]"

/-- Truthiness of a content value (`''`, `None` and `[]` are falsy). -/
def truthyContent : Content → Bool
  | .str s => s ≠ []
  | .null => false
  | .parts ps => ps ≠ []

/-- An inbound chat message. -/
structure Message where
  role : Str
  content : Content
  tool_calls : Option (List ToolCall) := none
  tool_call_id : Option Str := none
  name : Option Str := none
deriving DecidableEq, Repr

/-- `role in ('system', 'developer')`. -/
def isSysDev (m : Message) : Bool :=
  m.role = str "system" || m.role = str "developer"

/-- An inbound chat-completion request (`tools := none` models an absent
`tools` key; unsupported passthrough parameters are not tracked because no
claim depends on them). -/
structure ChatRequest where
  model : Option Str := none
  stream : Bool := false
  messages : List Message := []
  tools : Option (List ToolDef) := none
deriving DecidableEq, Repr

/-! ### Configuration tables (lines 13-42) -/

/-- `MODEL_MAP` in source order. -/
def MODEL_MAP : List (Str × Str) :=
  [(str "gpt-5.2", str "llama3.3:latest"),
   (str "gpt-5.1-codex", str "qwen2.5-coder:32b"),
   (str "gpt-5", str "llama3.3:latest"),
   (str "gpt-5-mini", str "phi4:latest"),
   (str "gpt-4.1", str "llama3.3:latest")]

/-- `REVERSE_MAP` after the comprehension (last client id wins per backend
id) and the explicit `REVERSE_MAP['llama3.3:latest'] = 'gpt-5.2'`
assignment, in dict insertion order of the keys. -/
def REVERSE_MAP : List (Str × Str) :=
  [(str "llama3.3:latest", str "gpt-5.2"),
   (str "qwen2.5-coder:32b", str "gpt-5.1-codex"),
   (str "phi4:latest", str "gpt-5-mini")]

/-- Keys of `DIRECT_ROUTES` (lines 25-42). -/
def DIRECT_ROUTE_KEYS : List Str := [str "deepseek-v3", str "gemini-flash"]

/-- `rewrite_model_in_response(data, original_model)` (lines 430-434):
every `REVERSE_MAP` key occurring in the body is textually replaced with
the request's original model id. -/
def rewrite_model_in_response (body original_model : Str) : Str :=
  REVERSE_MAP.foldl (fun t p => pyReplace t p.1 original_model) body

/-! ### do_POST: locating the latest genuine user text (lines 484-538) -/

/-- First text extraction from a user message's content (lines 488-497):
a string is taken as is; for a list, the first `{'type': 'text'}` part's
text (plain-string parts are not accepted here); otherwise `''`. -/
def firstTextPart : List Part → Str
  | [] => []
  | .pText t :: _ => t
  | _ :: rest => firstTextPart rest

/-- Text of a user message for the fallback scan. -/
def userTxtOf : Content → Str
  | .str s => s
  | .parts ps => firstTextPart ps
  | .null => []

/-- Digit run for the `(\d{5,})` capture. -/
def digitRun (s : Str) : Str := s.takeWhile Char.isDigit

/-- Match `(?:id:|telegram:)(\d{5,})` at the current position. -/
def idCapAt (s : Str) : Option Str :=
  if startsW (str "id:") s then
    let d := digitRun (s.drop 3)
    if d.length ≥ 5 then some d else none
  else if startsW (str "telegram:") s then
    let d := digitRun (s.drop 9)
    if d.length ≥ 5 then some d else none
  else none

/-- `re.search(r'(?:id:|telegram:)(\d{5,})', txt)` (line 505). -/
def idSearch : Str → Option Str
  | [] => none
  | c :: rest =>
    match idCapAt (c :: rest) with
    | some d => some d
    | none => idSearch rest

/-- Tail of the metadata pattern after the opening backticks:
`\s*\n\n(.+)` with `re.DOTALL`.  The `\n\n` must be reachable through
whitespace only, the greedy `\s*` selects the rightmost such position, and
the capture (to the end of the string) must be non-empty. -/
def nlnlCapAfterTicks (r : Str) : Option Str :=
  let wsLen := (r.takeWhile isSpaceC).length
  let cands := (List.range r.length).filter fun i =>
    i ≤ wsLen ∧ r.get? i = some '\n' ∧ r.get? (i + 1) = some '\n' ∧ i + 2 < r.length
  cands.getLast?.map fun i => r.drop (i + 2)

/-- `re.search(r'```\s*\n\n(.+)', txt, re.DOTALL)` (line 509): leftmost
occurrence of ``` ``` ``` whose tail matches. -/
def metaSearch : Str → Option Str
  | [] => none
  | c :: rest =>
    if startsW (str "```") (c :: rest) then
      match nlnlCapAfterTicks ((c :: rest).drop 3) with
      | some cap => some cap
      | none => metaSearch rest
    else metaSearch rest

/-- `re.search(r'\n\n([^\n].+)', txt, re.DOTALL)` (line 515): leftmost
blank line followed by a non-newline character and at least one more
character; the greedy capture runs to the end of the string. -/
def nlnlSearch : Str → Option Str
  | [] => none
  | c :: rest =>
    match c :: rest with
    | '\n' :: '\n' :: d :: e :: tail =>
      if d ≠ '\n' then some (d :: e :: tail) else nlnlSearch rest
    | _ => nlnlSearch rest

/-- The `Conversation info` metadata handling (lines 499-526): returns the
candidate user text (or `none` for `continue`) and the possibly updated
telegram chat id. -/
def convInfoStep (txt : Str) (chat : Option Str) : Option Str × Option Str :=
  if startsW (str "Conversation info") (pystrip txt) then
    let chat2 := match idSearch txt with
      | some d => some d
      | none => chat
    match metaSearch txt with
    | some cap => (some (pystrip cap), chat2)
    | none =>
      match nlnlSearch txt with
      | some cap =>
        let cand := pystrip cap
        if ¬ startsW (str "```") cand ∧ ¬ startsW (str "\x7b") cand then (some cand, chat2)
        else (none, chat2)
      | none => (none, chat2)
  else (some txt, chat)

/-- The cron/system skip test (lines 528-533), applied to the stripped
candidate text. -/
def cronSkip (txt : Str) : Bool :=
  let s := pystrip txt
  startsW (str "System:") s ||
  hasSub (str "cron job") (lowerS s) ||
  startsW (str "A cron job") s ||
  hasSub (str "Cron:") (s.take 200) ||
  startsW (str "NO_REPLY") s

/-- Walk the (already reversed, newest-first) message list looking for the
latest genuine user text, threading the extracted telegram chat id. -/
def extractFB : List Message → Option Str → Option Str × Option Str
  | [], chat => (none, chat)
  | m :: rest, chat =>
    if m.role = str "user" then
      match convInfoStep (userTxtOf m.content) chat with
      | (some txt2, chat2) =>
        if cronSkip txt2 then extractFB rest chat2 else (some txt2, chat2)
      | (none, chat2) => extractFB rest chat2
    else extractFB rest chat

/-- `last_user_text_for_fallback` for a request. -/
def extractFBText (req : ChatRequest) : Option Str :=
  (extractFB req.messages.reverse none).1

/-- `telegram_chat_id` for a request. -/
def extractFBChat (req : ChatRequest) : Option Str :=
  (extractFB req.messages.reverse none).2

/-! ### do_POST: forced-shortcut decision (lines 540-559) -/

/-- `has_tool_results` (lines 544-549): the last non-system/developer
message is a tool result, an assistant turn with non-empty `tool_calls`,
or its stringified content contains `'Exec completed'`. -/
def hasToolResultsFn (msgs : List Message) : Bool :=
  match (msgs.filter fun m => m.role ≠ str "system" ∧ m.role ≠ str "developer").getLast? with
  | none => false
  | some m =>
    m.role = str "tool" ||
    (m.role = str "assistant" && m.tool_calls.getD [] ≠ []) ||
    hasSub (str "Exec completed") (contentPyStr m.content)

/-- Python truthiness of the extracted user text. -/
def truthyTxt : Option Str → Bool
  | some s => s ≠ []
  | none => false

/-- The synthetic exec-only tool definition used when the client supplied
no tools (line 558). -/
def synthExecDef : ToolDef := ⟨str "function", str "exec", [str "command"]⟩

/-- The forced tool-call decision of `do_POST` (lines 553-559): with client
tools present the fallback runs against them; with no client tools it runs
against the synthetic exec definition; it is skipped when `has_tool_results`
holds or no genuine user text was found. -/
def decideForcedTc (req : ChatRequest) (ok tok : Str) : Option (List ToolCall) :=
  if truthyTxt (extractFBText req) = true ∧ req.tools.getD [] ≠ [] ∧
      hasToolResultsFn req.messages = false then
    fallback_tool_call ((extractFBText req).getD []) (req.tools.getD [])
      (extractFBChat req) ok tok
  else if truthyTxt (extractFBText req) = true ∧ req.tools.getD [] = [] ∧
      hasToolResultsFn req.messages = false then
    fallback_tool_call ((extractFBText req).getD []) [synthExecDef]
      (extractFBChat req) ok tok
  else none

/-! ### do_POST: tool-prompt injection (lines 177-203, 401-416, 677-682) -/

/-- Leading fixed text of `build_tool_prompt` (lines 191-195). -/
def TOOL_PROMPT_PRE : Str :=
  str "\n\n## TOOL CALLING — YOU MUST FOLLOW THIS\nNEVER respond with just text. You MUST call tools.\nFormat: TOOL_CALL: <tool_name> <arguments>\n\nAvailable tools: "

/-- Trailing fixed text of `build_tool_prompt` (lines 195-203). -/
def TOOL_PROMPT_POST : Str :=
  str "\n\nWhen user says \x27scout @X\x27: TOOL_CALL: exec cd /data/.openclaw/skills/xcite-bot && node scripts/scout-batch.mjs --seed X\nWhen user says \x27next\x27: TOOL_CALL: exec cd /data/.openclaw/skills/xcite-bot && node scripts/prospect-store.mjs next\nWhen user says \x27stats\x27: TOOL_CALL: exec cd /data/.openclaw/skills/xcite-bot && node scripts/prospect-store.mjs stats\nWhen user says \x27sent\x27: TOOL_CALL: exec cd /data/.openclaw/skills/xcite-bot && node scripts/prospect-store.mjs mark-sent\nWhen user says \x27skip\x27: TOOL_CALL: exec cd /data/.openclaw/skills/xcite-bot && node scripts/prospect-store.mjs mark-skipped\nWhen user says \x27replied\x27: TOOL_CALL: exec cd /data/.openclaw/skills/xcite-bot && node scripts/prospect-store.mjs mark-replied\n\nIMPORTANT: Copy the TOOL_CALL line EXACTLY as shown. Do NOT explain, do NOT ask questions.\n"

/-- `build_tool_prompt(tool_defs)` (lines 177-203). -/
def build_tool_prompt (defs : List ToolDef) : Option Str :=
  if defs = [] then none
  else
    let names := defs.filterMap fun t =>
      if t.typ = str "function" ∧ t.name ≠ [] then some t.name else none
    if names = [] then none
    else some (TOOL_PROMPT_PRE ++ joinSep (str ", ") names ++ TOOL_PROMPT_POST)

/-- Append text to a content value the way `inject_tool_descriptions` does:
string content is extended, the first text part of a list is extended,
anything else is left unchanged. -/
def appendFirstText : List Part → Str → List Part
  | [], _ => []
  | .pText t :: rest, txt => .pText (t ++ txt) :: rest
  | p :: rest, txt => p :: appendFirstText rest txt

/-- Content extension for the injection. -/
def appendToContent : Content → Str → Content
  | .str s, t => .str (s ++ t)
  | .parts ps, t => .parts (appendFirstText ps t)
  | .null, _ => .null

/-- Inject into the first system/developer message, if any. -/
def injectAux : List Message → Str → Option (List Message)
  | [], _ => none
  | m :: rest, txt =>
    if isSysDev m then some ({ m with content := appendToContent m.content txt } :: rest)
    else (injectAux rest txt).map (m :: ·)

/-- `inject_tool_descriptions(data, tool_text)` (lines 401-416): extend the
first system/developer message, or prepend a new system message carrying
the stripped tool text. -/
def injectToolDescriptions (msgs : List Message) (txt : Str) : List Message :=
  match injectAux msgs txt with
  | some ms => ms
  | none => ⟨str "system", .str (pystrip txt), none, none, none⟩ :: msgs

/-! ### do_POST: message cleaning and trimming (lines 684-737) -/

/-- Fix-ups applied to assistant content (lines 718-723). -/
def fixAssistant : Content → Content
  | .str s =>
    if upperS (pystrip s) = str "NO_REPLY" then .str (str "(thinking...)")
    else if s = [] then .str (str "(no response)")
    else .str s
  | c => if truthyContent c = false then .str (str "(no response)") else c

/-- NO_REPLY stripping on system/developer content (lines 704-716): string
content goes through the stripper; each text part of a list does too;
other content is unchanged. -/
def stripContentSys : Content → Content
  | .str s => strip_no_reply_from_content (.str s)
  | .parts ps => .parts (ps.map fun p =>
      match p with
      | .pText t =>
        match strip_no_reply_from_content (.str t) with
        | .str t2 => .pText t2
        | _ => .pText t
      | p => p)
  | .null => .null

/-- One step of the message-cleaning loop (lines 686-725): tool results
become tagged user turns; `tool_calls` / `tool_call_id` are dropped;
system/developer content is NO_REPLY-stripped; assistant content is
fixed up. -/
def cleanMessage (m : Message) : Message :=
  if m.role = str "tool" then
    { role := str "user",
      content := .str (str "[Tool result from " ++ m.name.getD (str "tool") ++ str "]: " ++
                       contentPyStr m.content),
      tool_calls := none, tool_call_id := none, name := none }
  else
    let m1 : Message := { m with tool_calls := none, tool_call_id := none }
    let m2 : Message :=
      if isSysDev m1 then { m1 with content := stripContentSys m1.content } else m1
    if m2.role = str "assistant" then { m2 with content := fixAssistant m2.content } else m2

/-- `MAX_HISTORY` (line 730). -/
def MAX_HISTORY : Nat := 4

/-- The message-trimming step (lines 727-737): keep all system/developer
messages, then the last `MAX_HISTORY` conversation messages. -/
def trimMessages (msgs : List Message) : List Message :=
  let sys := msgs.filter isSysDev
  let convo := msgs.filter fun m => !isSysDev m
  let convo2 := if convo.length > MAX_HISTORY then convo.drop (convo.length - MAX_HISTORY)
                else convo
  sys ++ convo2

/-- Text extraction for the second `last_user_text` computation
(lines 741-759): the first part that is a text dict or a plain string. -/
def firstTextOrStr : List Part → Option Str
  | [] => none
  | .pText t :: _ => some t
  | .pStr s :: _ => some s
  | .pOther :: rest => firstTextOrStr rest

/-- `last_user_text` of one content value for the second scan. -/
def lastUserTxt2 : Content → Option Str
  | .str s => some s
  | .parts ps => firstTextOrStr ps
  | .null => none

/-- Newest-first scan for the last user message (lines 743-759; no
cron/metadata filtering here, and the scan stops at the first user turn). -/
def recomputeLastUserAux : List Message → Option Str
  | [] => none
  | m :: rest =>
    if m.role = str "user" then lastUserTxt2 m.content else recomputeLastUserAux rest

/-- `last_user_text` recomputed over the cleaned and trimmed messages. -/
def recomputeLastUser (msgs : List Message) : Option Str :=
  recomputeLastUserAux msgs.reverse

/-! ### do_POST outcome (lines 452-795) -/

/-- What `do_POST` does with a request: return a forced synthetic response,
hand off to the direct cloud route, forward to `_proxy`, or crash with an
uncaught `UnboundLocalError` (no response written). -/
inductive PostOutcome
  | forced (stream : Bool) (tcs : List ToolCall)
  | direct (model : Str)
  | toProxy (stream : Bool) (origModel : Str) (msgs : List Message)
      (tdefs : List ToolDef) (lastUser : Option Str)
  | crash (varName : Str)
deriving DecidableEq, Repr

/-- The successfully-parsed body of `do_POST` (lines 458-795), up to the
hand-off to `_proxy`.  The web-search injection (lines 739-780) is elided:
it inserts an extra system message using an external search collaborator
and does not change any field of the outcome. -/
def doPOSTBody (req : ChatRequest) (ok tok : Str) : PostOutcome :=
  let original_model := req.model.getD (str "gpt-5.2")
  match decideForcedTc req ok tok with
  | some tcs => .forced req.stream tcs
  | none =>
    if original_model ∈ DIRECT_ROUTE_KEYS then .direct original_model
    else
      let tool_defs := req.tools.getD []
      let msgs0 :=
        match req.tools, build_tool_prompt tool_defs with
        | some _, some ttext => injectToolDescriptions req.messages ttext
        | _, _ => req.messages
      let trimmed := trimMessages (msgs0.map cleanMessage)
      .toProxy req.stream original_model trimmed tool_defs (recomputeLastUser trimmed)

/-- `do_POST` on a parsed-or-malformed body.  On a JSON parse failure the
`except (json.JSONDecodeError, KeyError)` handler (line 793) only logs, and
control reaches `self._proxy('POST', body, client_wants_stream,
original_model, tool_defs, last_user_text)` at line 795.  `tool_defs`
(line 666) and `last_user_text` (line 741) are assigned only inside the
`try` block, so the argument list hits an unbound local; Python raises
`UnboundLocalError` for `tool_defs` (the first unbound name in evaluation
order), the handler thread aborts, and no response is written. -/
def doPOST (parsed : Option ChatRequest) (ok tok : Str) : PostOutcome :=
  match parsed with
  | some data => doPOSTBody data ok tok
  | none =>
    match (none : Option (List ToolDef)), (none : Option (Option Str)) with
    | some _, some _ => .toProxy false (str "gpt-5.2") [] [] none
    | _, _ => .crash (str "tool_defs")

/-- Does the outcome produce any HTTP response at all? -/
def producesResponse : PostOutcome → Bool
  | .crash _ => false
  | _ => true

/-- Projection: the `last_user_text` handed to `_proxy`. -/
def postLastUser : PostOutcome → Option Str
  | .toProxy _ _ _ _ lu => lu
  | _ => none

/-- Projection: the `tool_defs` handed to `_proxy`. -/
def postTDefs : PostOutcome → List ToolDef
  | .toProxy _ _ _ td _ => td
  | _ => []

/-- Is the outcome the forced shortcut? -/
def isForced : PostOutcome → Bool
  | .forced _ _ => true
  | _ => false

/-! ### `_proxy` response post-processing (lines 853-903) -/

/-- The logical backend response (`choices[0].message` plus envelope
fields), with `json.loads` defaults already applied. -/
structure ChatResp where
  id : Str := str "chatcmpl-0"
  created : Nat := 0
  model : Str
  role : Str := str "assistant"
  content : Option Str := none
  tool_calls : Option (List ToolCall) := none
  finish : Str := str "stop"
deriving DecidableEq, Repr

/-- The fallback re-match in `_proxy` (lines 864-866): run whenever
`tool_defs` is non-empty and `last_user_text` is truthy; note the chat id
defaults to `None` here and `has_tool_results` is not consulted. -/
def responseForced (tdefs : List ToolDef) (lastUser : Option Str) (ok tok : Str) :
    Option (List ToolCall) :=
  if tdefs = [] then none
  else
    match lastUser with
    | some lu => if lu ≠ [] then fallback_tool_call lu tdefs none ok tok else none
    | none => none

/-- The tool-call injection stage of `_proxy` (lines 856-885). -/
def responseToolStage (resp : ChatResp) (tdefs : List ToolDef) (lastUser : Option Str)
    (ok tok : Str) : ChatResp :=
  if tdefs = [] then resp
  else
    let text_content := resp.content.getD []
    match responseForced tdefs lastUser ok tok with
    | some tcs =>
      { resp with tool_calls := some tcs,
                  content := if text_content = [] then none else some text_content,
                  finish := str "tool_calls" }
    | none =>
      match convert_text_to_tool_calls text_content tdefs with
      | (cleaned, some tcs) =>
        { resp with content := if cleaned = [] then none else some cleaned,
                    tool_calls := some tcs, finish := str "tool_calls" }
      | (_, none) => resp

/-- The NO_REPLY interception stage of `_proxy` (lines 891-903). -/
def noReplyStage (resp : ChatResp) : ChatResp :=
  match resp.content with
  | some s =>
    if upperS (pystrip s) = str "NO_REPLY" then
      { resp with content := some (str "Hey! I got your message. What\x27s on your mind?") }
    else resp
  | none => resp

/-! ### Streaming emitters (lines 579-601, 905-995, 1060-1137)

Each SSE `chat.completion.chunk` carries an optional `delta.role`, an
optional `delta.content`, a list of indexed `delta.tool_calls`, and an
optional `finish_reason`; the stream ends with `data: [DONE]`.  The
`usage` passthrough of the terminal chunk is elided (no claim depends
on it). -/

/-- One streamed `chat.completion.chunk`. -/
structure Chunk where
  id : Str
  created : Nat
  model : Str
  role : Option Str := none
  content : Option Str := none
  toolDeltas : List (Nat × ToolCall) := []
  finish : Option Str := none
deriving DecidableEq, Repr

/-- One item of the emitted event stream. -/
inductive SSEItem
  | chunk (c : Chunk)
  | doneMarker
deriving DecidableEq, Repr

/-- The fixed-size content chunking `for i in range(0, max(len(content), 1),
chunk_size)` with `piece = content[i:i+chunk_size]` (lines 965-967). -/
def contentPieces (content : Str) : List Str :=
  (pyRange 0 (max content.length 1) 100).map fun i => (content.drop i).take 100

/-- One tool-call delta chunk per call, indexed incrementally; only the
first carries the role (lines 926-947). -/
def toolDeltaChunks (idv : Str) (created : Nat) (model roleFirst : Str)
    (tcs : List ToolCall) : List Chunk :=
  (enumFrom 0 tcs).map fun p =>
    { id := idv, created := created, model := model,
      role := if p.1 = 0 then some roleFirst else none,
      toolDeltas := [(p.1, p.2)] }

/-- The SSE stream synthesized by `_proxy` from a unary backend response
(lines 921-983): tool-call deltas when calls are present, otherwise a
role-announcement chunk, fixed-size content deltas, a terminal chunk and
the `[DONE]` marker. -/
def sseFromResp (resp : ChatResp) : List SSEItem :=
  let content := resp.content.getD []
  let tcs := resp.tool_calls.getD []
  if tcs ≠ [] then
    (toolDeltaChunks resp.id resp.created resp.model resp.role tcs).map .chunk ++
    [.chunk { id := resp.id, created := resp.created, model := resp.model,
              finish := some (str "tool_calls") },
     .doneMarker]
  else
    .chunk { id := resp.id, created := resp.created, model := resp.model,
             role := some resp.role, content := some [] } ::
    (contentPieces content).map (fun p =>
      .chunk { id := resp.id, created := resp.created, model := resp.model,
               content := some p }) ++
    [.chunk { id := resp.id, created := resp.created, model := resp.model,
              finish := some resp.finish },
     .doneMarker]

/-- The SSE stream synthesized by `_direct_proxy` (lines 1060-1127); the
code block is a separate copy in the source with the same event shapes,
except that `model` is always the client-facing model name. -/
def sseFromRespDirect (resp : ChatResp) (original_model : Str) : List SSEItem :=
  let content := resp.content.getD []
  let tcs := resp.tool_calls.getD []
  if tcs ≠ [] then
    (toolDeltaChunks resp.id resp.created original_model resp.role tcs).map .chunk ++
    [.chunk { id := resp.id, created := resp.created, model := original_model,
              finish := some (str "tool_calls") },
     .doneMarker]
  else
    .chunk { id := resp.id, created := resp.created, model := original_model,
             role := some resp.role, content := some [] } ::
    (contentPieces content).map (fun p =>
      .chunk { id := resp.id, created := resp.created, model := original_model,
               content := some p }) ++
    [.chunk { id := resp.id, created := resp.created, model := original_model,
              finish := some resp.finish },
     .doneMarker]

/-- The SSE stream synthesized for the forced shortcut in `do_POST`
(lines 579-601): one tool-call delta per forced call (the first carrying
role `assistant`), a terminal chunk, and `[DONE]`. -/
def sseForced (model : Str) (created : Nat) (tcs : List ToolCall) : List SSEItem :=
  (toolDeltaChunks (str "chatcmpl-forced-0") created model (str "assistant") tcs).map .chunk ++
  [.chunk { id := str "chatcmpl-forced-0", created := created, model := model,
            finish := some (str "tool_calls") },
   .doneMarker]

/-- Concatenation of all `delta.content` payloads of a stream, in emission
order. -/
def contentConcat (items : List SSEItem) : Str :=
  (items.filterMap fun it =>
    match it with
    | .chunk c => c.content
    | .doneMarker => none).flatten

/-- All tool calls carried by the tool-call deltas of a stream, in emission
order. -/
def toolCallsOf (items : List SSEItem) : List ToolCall :=
  (items.map fun it =>
    match it with
    | .chunk c => c.toolDeltas.map Prod.snd
    | .doneMarker => []).flatten

/-- The content text of the corresponding unary response body (`None`
renders as empty text). -/
def unaryContentText (resp : ChatResp) : Str := resp.content.getD []

/-! ## Supporting lemmas -/

/-- Concatenating the fixed-size slices produced by `pyRangeFuel` recovers
the dropped suffix of the string. -/
theorem pyRangeFuel_slices_flatten (c : Str) (step : Nat) (hstep : 0 < step) :
    ∀ fuel s stop, stop - s ≤ fuel → c.length ≤ stop →
      ((pyRangeFuel fuel s stop step).map fun i => (c.drop i).take step).flatten
        = c.drop s := by
  intro fuel
  induction fuel with
  | zero =>
    intro s stop h1 h2
    simp only [pyRangeFuel, List.map_nil, List.flatten_nil]
    exact (List.drop_eq_nil_of_le (by omega)).symm
  | succ n ih =>
    intro s stop h1 h2
    by_cases hlt : s < stop
    · simp only [pyRangeFuel, if_pos hlt, List.map_cons, List.flatten_cons]
      rw [ih (s + step) stop (by omega) h2]
      have hdd : (c.drop s).drop step = c.drop (s + step) := by
        rw [List.drop_drop, Nat.add_comm]
      rw [← hdd, List.take_append_drop]
    · simp only [pyRangeFuel, if_neg hlt, List.map_nil, List.flatten_nil]
      exact (List.drop_eq_nil_of_le (by omega)).symm

/-- Concatenating the emitted content pieces recovers the content text. -/
theorem contentPieces_flatten (c : Str) : (contentPieces c).flatten = c := by
  unfold contentPieces pyRange
  have h := pyRangeFuel_slices_flatten c 100 (by omega) (max c.length 1 - 0) 0
    (max c.length 1) (by omega) (Nat.le_max_left _ _)
  simpa using h

/-- The emitter always produces at least one content piece, even for empty
content. -/
theorem contentPieces_ne_nil (c : Str) : contentPieces c ≠ [] := by
  unfold contentPieces pyRange
  obtain ⟨k, hk⟩ : ∃ k, max c.length 1 = k + 1 :=
    ⟨max c.length 1 - 1, by have := Nat.le_max_right c.length 1; omega⟩
  rw [hk]
  simp [pyRangeFuel]

/-- Extracting the content payloads of the piece chunks recovers the piece
list. -/
theorem filterMapContent_pieces (idv : Str) (cr : Nat) (mdl : Str) (ps : List Str) :
    ((ps.map fun p => SSEItem.chunk
        { id := idv, created := cr, model := mdl, content := some p }).filterMap fun it =>
      match it with
      | .chunk c => c.content
      | .doneMarker => none) = ps := by
  induction ps with
  | nil => rfl
  | cons a t ih => simp only [List.map_cons, List.filterMap_cons, ih]

/-- Extracting the tool calls of the indexed delta chunks recovers the call
list. -/
theorem toolDeltaChunks_calls (idv : Str) (cr : Nat) (mdl rl : Str) :
    ∀ (i : Nat) (tcs : List ToolCall),
      ((List.map SSEItem.chunk ((enumFrom i tcs).map fun p =>
          ({ id := idv, created := cr, model := mdl,
             role := if p.1 = 0 then some rl else none,
             toolDeltas := [(p.1, p.2)] } : Chunk))).map fun it =>
        match it with
        | .chunk c => c.toolDeltas.map Prod.snd
        | .doneMarker => []).flatten = tcs := by
  intro i tcs
  induction tcs generalizing i with
  | nil => rfl
  | cons a t ih =>
    simp only [enumFrom, List.map_cons, List.flatten_cons]
    rw [ih (i + 1)]
    rfl

/-! ## Claim C2 -/

/-- Extracting the content payloads of tool-call delta chunks yields
nothing: those chunks carry no `delta.content` key. -/
theorem filterMapContent_toolChunks (idv : Str) (cr : Nat) (mdl rl : Str) :
    ∀ (i : Nat) (tcs : List ToolCall),
      ((List.map SSEItem.chunk ((enumFrom i tcs).map fun p =>
          ({ id := idv, created := cr, model := mdl,
             role := if p.1 = 0 then some rl else none,
             toolDeltas := [(p.1, p.2)] } : Chunk))).filterMap fun it =>
        match it with
        | .chunk c => c.content
        | .doneMarker => none) = [] := by
  intro i tcs
  induction tcs generalizing i with
  | nil => rfl
  | cons a t ih =>
    simp only [enumFrom, List.map_cons, List.filterMap_cons]
    exact ih (i + 1)

/-- The logical response reachable through `_proxy` lines 864-875 on a
directive echo: the model's text is kept as content while the forced tool
call is injected. -/
def c2resp : ChatResp :=
  ⟨str "chatcmpl-0", 0, str "llama3.3:latest", str "assistant", some (str "On it!"),
   some [⟨str "call_fallback_0", str "function", str "exec",
     [(str "command",
       ArgV.s (str "cd /data/.openclaw/skills/xcite-bot && node scripts/prospect-store.mjs stats"))]⟩],
   str "tool_calls"⟩

/-- C2 counterexample: the claim says that for *every* streamed logical
response, concatenating the content deltas reconstructs the content text,
which equals the unary content.  A response carrying both text and tool
calls is reachable — the forced injection at `_proxy` lines 868-875 keeps
the model's text as `content` while setting `tool_calls` — and for such a
response the stream consists solely of tool-call deltas: the streamed
content is empty while the unary body retains `On it!`. -/
theorem c2_counterexample :
    responseToolStage ⟨str "chatcmpl-0", 0, str "llama3.3:latest", str "assistant",
        some (str "On it!"), none, str "stop"⟩ [synthExecDef] (some (str "stats")) [] []
      = c2resp
    ∧ contentConcat (sseFromResp c2resp) = []
    ∧ unaryContentText c2resp = str "On it!"
    ∧ ([] : Str) ≠ str "On it!" := by
  refine ⟨by decide, by decide, by decide, by decide⟩

/-- C2 amended: when the logical response carries tool calls, the stream
consists solely of tool-call deltas (no content deltas at all), which
reconstruct the call list exactly — the content text, even when the unary
body retains it, is not streamed; when the response carries no tool calls,
concatenating the content deltas reconstructs the content text exactly and
equals the unary content.  This holds for the `_proxy`, `_direct_proxy`
and forced directive-shortcut emitters alike. -/
theorem c2_stream_reconstruction :
    (∀ (idv : Str) (cr : Nat) (mdl rl fin : Str) (content : Option Str),
      contentConcat (sseFromResp ⟨idv, cr, mdl, rl, content, none, fin⟩)
        = unaryContentText ⟨idv, cr, mdl, rl, content, none, fin⟩)
    ∧ (∀ (idv : Str) (cr : Nat) (mdl rl fin : Str) (content : Option Str)
        (tc : ToolCall) (rest : List ToolCall),
      toolCallsOf (sseFromResp ⟨idv, cr, mdl, rl, content, some (tc :: rest), fin⟩)
        = tc :: rest)
    ∧ (∀ (mdl : Str) (cr : Nat) (tcs : List ToolCall),
      toolCallsOf (sseForced mdl cr tcs) = tcs)
    ∧ (∀ (idv : Str) (cr : Nat) (mdl om rl fin : Str) (content : Option Str),
      contentConcat (sseFromRespDirect ⟨idv, cr, mdl, rl, content, none, fin⟩ om)
        = unaryContentText ⟨idv, cr, mdl, rl, content, none, fin⟩)
    ∧ (∀ (idv : Str) (cr : Nat) (mdl om rl fin : Str) (content : Option Str)
        (tc : ToolCall) (rest : List ToolCall),
      toolCallsOf (sseFromRespDirect ⟨idv, cr, mdl, rl, content, some (tc :: rest), fin⟩ om)
        = tc :: rest)
    ∧ (∀ (idv : Str) (cr : Nat) (mdl rl fin : Str) (content : Option Str)
        (tc : ToolCall) (rest : List ToolCall),
      contentConcat (sseFromResp ⟨idv, cr, mdl, rl, content, some (tc :: rest), fin⟩) = [])
    ∧ (∀ (idv : Str) (cr : Nat) (mdl om rl fin : Str) (content : Option Str)
        (tc : ToolCall) (rest : List ToolCall),
      contentConcat (sseFromRespDirect ⟨idv, cr, mdl, rl, content, some (tc :: rest), fin⟩ om)
        = [])
    ∧ (∀ (mdl : Str) (cr : Nat) (tcs : List ToolCall),
      contentConcat (sseForced mdl cr tcs) = []) := by
  refine ⟨?_, ?_, ?_, ?_, ?_, ?_, ?_, ?_⟩
  · intro idv cr mdl rl fin content
    simp only [sseFromResp, unaryContentText, contentConcat, Option.getD_none, ne_eq,
      not_true_eq_false, if_false, List.filterMap_cons, List.filterMap_append,
      filterMapContent_pieces, List.flatten_cons, List.flatten_append]
    simp [contentPieces_flatten]
  · intro idv cr mdl rl fin content tc rest
    simp only [sseFromResp, toolCallsOf, toolDeltaChunks]
    simp only [Option.getD_some, ne_eq, reduceCtorEq, not_false_eq_true, if_true,
      List.map_append, List.flatten_append]
    rw [toolDeltaChunks_calls idv cr mdl rl 0 (tc :: rest)]
    simp
  · intro mdl cr tcs
    simp only [sseForced, toolCallsOf, toolDeltaChunks, List.map_append, List.flatten_append]
    rw [toolDeltaChunks_calls (str "chatcmpl-forced-0") cr mdl (str "assistant") 0 tcs]
    simp
  · intro idv cr mdl om rl fin content
    simp only [sseFromRespDirect, unaryContentText, contentConcat, Option.getD_none, ne_eq,
      not_true_eq_false, if_false, List.filterMap_cons, List.filterMap_append,
      filterMapContent_pieces, List.flatten_cons, List.flatten_append]
    simp [contentPieces_flatten]
  · intro idv cr mdl om rl fin content tc rest
    simp only [sseFromRespDirect, toolCallsOf, toolDeltaChunks]
    simp only [Option.getD_some, ne_eq, reduceCtorEq, not_false_eq_true, if_true,
      List.map_append, List.flatten_append]
    rw [toolDeltaChunks_calls idv cr om rl 0 (tc :: rest)]
    simp
  · intro idv cr mdl rl fin content tc rest
    simp only [sseFromResp, contentConcat, toolDeltaChunks]
    simp only [Option.getD_some, ne_eq, reduceCtorEq, not_false_eq_true, if_true,
      List.filterMap_append]
    rw [filterMapContent_toolChunks idv cr mdl rl 0 (tc :: rest)]
    rfl
  · intro idv cr mdl om rl fin content tc rest
    simp only [sseFromRespDirect, contentConcat, toolDeltaChunks]
    simp only [Option.getD_some, ne_eq, reduceCtorEq, not_false_eq_true, if_true,
      List.filterMap_append]
    rw [filterMapContent_toolChunks idv cr om rl 0 (tc :: rest)]
    rfl
  · intro mdl cr tcs
    simp only [sseForced, contentConcat, toolDeltaChunks, List.filterMap_append]
    rw [filterMapContent_toolChunks (str "chatcmpl-forced-0") cr mdl (str "assistant") 0 tcs]
    rfl

/-! ## Claim C10 -/

/-- C10: a streamed response with empty content and no tool calls still
yields exactly one content-delta event with an empty payload, next to the
role-announcement chunk, the terminal chunk and the `[DONE]` marker — in
both `_proxy` and `_direct_proxy` — so every content stream has at least
one content delta and concatenation still recovers the (empty) content. -/
theorem c10_empty_content_single_delta :
    sseFromResp ⟨str "chatcmpl-0", 0, str "llama3.3:latest", str "assistant",
        some [], none, str "stop"⟩
      = [.chunk ⟨str "chatcmpl-0", 0, str "llama3.3:latest", some (str "assistant"),
           some [], [], none⟩,
         .chunk ⟨str "chatcmpl-0", 0, str "llama3.3:latest", none, some [], [], none⟩,
         .chunk ⟨str "chatcmpl-0", 0, str "llama3.3:latest", none, none, [],
           some (str "stop")⟩,
         .doneMarker]
    ∧ sseFromRespDirect ⟨str "gen-1", 7, str "deepseek/deepseek-chat", str "assistant",
          none, none, str "stop"⟩ (str "deepseek-v3")
      = [.chunk ⟨str "gen-1", 7, str "deepseek-v3", some (str "assistant"),
           some [], [], none⟩,
         .chunk ⟨str "gen-1", 7, str "deepseek-v3", none, some [], [], none⟩,
         .chunk ⟨str "gen-1", 7, str "deepseek-v3", none, none, [], some (str "stop")⟩,
         .doneMarker]
    ∧ (∀ c : Str, contentPieces c ≠ [])
    ∧ contentConcat (sseFromResp ⟨str "chatcmpl-0", 0, str "llama3.3:latest",
        str "assistant", some [], none, str "stop"⟩) = [] := by
  refine ⟨rfl, rfl, contentPieces_ne_nil, rfl⟩

/-! ## Claim C1 -/

/-- C1: the claim says a POST whose body is not valid JSON degrades to the
default model id and an empty message list and still gets a best-effort
response.  In the code the `except` clause at line 793 only logs, and the
`self._proxy(...)` call at line 795 then reads the locals `tool_defs` and
`last_user_text`, which were never assigned on this path; the handler dies
with `UnboundLocalError: tool_defs` and the client receives no response at
all.  The spec's intent (always answer) is clear, so this is a code bug;
here we prove what the code does at the failing input. -/
theorem c1_malformed_request_crashes :
    (∀ ok tok : Str, doPOST none ok tok = .crash (str "tool_defs"))
    ∧ (∀ ok tok : Str, producesResponse (doPOST none ok tok) = false) :=
  ⟨fun _ _ => rfl, fun _ _ => rfl⟩

/-! ## Claim C3 -/

/-- C3 counterexample: the claim says each known backend id occurring in a
response body is replaced by that id's *own* client-facing counterpart.
For a request whose client model is `gpt-5.2`, a body consisting of the
backend id `phi4:latest` (whose own counterpart is `gpt-5-mini`) is
rewritten to `gpt-5.2`, not to `gpt-5-mini`. -/
theorem c3_counterexample :
    rewrite_model_in_response (str "phi4:latest") (str "gpt-5.2") = str "gpt-5.2"
    ∧ lookupStr REVERSE_MAP (str "phi4:latest") = some (str "gpt-5-mini")
    ∧ rewrite_model_in_response (str "phi4:latest") (str "gpt-5.2") ≠ str "gpt-5-mini" := by
  decide

/-! ### A theory of `pyReplace` occurrences, for the general C3 statement -/

/-- The empty pattern matches everywhere. -/
theorem startsW_nil (s : Str) : startsW [] s = true := by cases s <;> rfl

/-- A matched pattern is no longer than the text. -/
theorem startsW_length_le (p s : Str) (h : startsW p s = true) : p.length ≤ s.length := by
  induction p generalizing s with
  | nil => simp
  | cons d p' ih =>
    cases s with
    | nil => exact Bool.noConfusion h
    | cons c t =>
      simp only [startsW, Bool.and_eq_true] at h
      have := ih t h.2
      simp only [List.length_cons]
      omega

/-- If `p` fits inside `A`, a match against `A ++ R` is a match against
`A` alone. -/
theorem startsW_append_of_le (p A R : Str) (h : startsW p (A ++ R) = true)
    (hlen : p.length ≤ A.length) : startsW p A = true := by
  induction p generalizing A with
  | nil => exact startsW_nil A
  | cons d p' ih =>
    cases A with
    | nil => simp at hlen
    | cons c A' =>
      rw [List.cons_append] at h
      simp only [startsW, Bool.and_eq_true] at h ⊢
      refine ⟨h.1, ih A' h.2 ?_⟩
      simp only [List.length_cons] at hlen
      omega

/-- If `A` fits inside `p` and `p` matches `A ++ R`, then `A` is a prefix
of `p`. -/
theorem startsW_prefix_of_append (p A R : Str) (h : startsW p (A ++ R) = true)
    (hlen : A.length ≤ p.length) : startsW A p = true := by
  induction A generalizing p with
  | nil => exact startsW_nil p
  | cons c A' ih =>
    cases p with
    | nil => simp at hlen
    | cons d p' =>
      rw [List.cons_append] at h
      simp only [startsW, Bool.and_eq_true, decide_eq_true_eq] at h ⊢
      refine ⟨h.1.symm, ih p' h.2 ?_⟩
      simp only [List.length_cons] at hlen
      omega

/-- Dropping the `A`-part of a pattern matching `A ++ R` leaves a match of
`R`. -/
theorem startsW_drop_append (p A R : Str) (h : startsW p (A ++ R) = true)
    (hlen : A.length ≤ p.length) : startsW (p.drop A.length) R = true := by
  induction A generalizing p with
  | nil => simpa using h
  | cons c A' ih =>
    cases p with
    | nil => simp at hlen
    | cons d p' =>
      rw [List.cons_append] at h
      simp only [startsW, Bool.and_eq_true] at h
      have := ih p' h.2 (by simp only [List.length_cons] at hlen; omega)
      simpa using this

/-- The `A`-part of a pattern matching `A ++ R` is `A` itself. -/
theorem take_eq_of_startsW (p A R : Str) (h : startsW p (A ++ R) = true)
    (hlen : A.length ≤ p.length) : p.take A.length = A := by
  induction A generalizing p with
  | nil => simp
  | cons c A' ih =>
    cases p with
    | nil => simp at hlen
    | cons d p' =>
      rw [List.cons_append] at h
      simp only [startsW, Bool.and_eq_true, decide_eq_true_eq] at h
      have := ih p' h.2 (by simp only [List.length_cons] at hlen; omega)
      simp only [List.length_cons, List.take_succ_cons, List.cons.injEq]
      exact ⟨h.1, this⟩

/-- A match at the start is an occurrence. -/
theorem hasSub_of_startsW (p s : Str) (h : startsW p s = true) : hasSub p s = true := by
  cases s with
  | nil => simpa [hasSub] using h
  | cons c t => simp [hasSub, h]

/-- Substring occurrence is preserved by extending on the left by one
character. -/
theorem hasSub_cons (p : Str) (c : Char) (s : Str) (h : hasSub p s = true) :
    hasSub p (c :: s) = true := by
  simp [hasSub, h]

/-- An occurrence in a dropped suffix is an occurrence. -/
theorem hasSub_drop_le (p l : Str) (n : Nat) (h : hasSub p (l.drop n) = true) :
    hasSub p l = true := by
  induction l generalizing n with
  | nil => simpa using h
  | cons c t ih =>
    cases n with
    | zero => simpa using h
    | succ m => exact hasSub_cons p c t (ih m h)

/-- A Bool that is not false is true. -/
theorem bool_ne_false (x : Bool) (h : ¬ x = false) : x = true := by
  cases x
  · exact absurd rfl h
  · rfl

/-- A false disjunction splits. -/
theorem bool_or_false_split (a b : Bool) (h : (a || b) = false) :
    a = false ∧ b = false := by
  cases a <;> cases b <;> simp_all

/-- Destructing a nonempty pattern matching a cons. -/
theorem startsW_cons_elim (p : Str) (c : Char) (t : Str) (hp : p ≠ [])
    (h : startsW p (c :: t) = true) :
    p.head? = some c ∧ startsW (p.drop 1) t = true := by
  cases p with
  | nil => exact absurd rfl hp
  | cons d p' =>
    simp only [startsW, Bool.and_eq_true, decide_eq_true_eq] at h
    exact ⟨by rw [List.head?_cons, h.1], h.2⟩

/-- Rebuilding a match of a cons from head and tail. -/
theorem startsW_cons_intro (p : Str) (c : Char) (t : Str) (hp : p ≠ [])
    (hh : p.head? = some c) (ht : startsW (p.drop 1) t = true) :
    startsW p (c :: t) = true := by
  cases p with
  | nil => exact absurd rfl hp
  | cons d p' =>
    simp only [List.head?_cons, Option.some.injEq] at hh
    simp only [startsW, Bool.and_eq_true, decide_eq_true_eq]
    exact ⟨hh, ht⟩

/-- Any occurrence of `p` in `A ++ R` lies inside `A`, lies inside `R`, or
spans the boundary: a nonempty proper prefix of `p` is then a suffix of `A`
and the rest of `p` starts `R`. -/
theorem hasSub_append_split (p A R : Str) (h : hasSub p (A ++ R) = true) :
    hasSub p A = true ∨ hasSub p R = true ∨
    ∃ u, 0 < u ∧ u < p.length ∧ p.take u <:+ A ∧ startsW (p.drop u) R = true := by
  induction A with
  | nil => exact Or.inr (Or.inl (by simpa using h))
  | cons c A' ih =>
    rw [List.cons_append] at h
    simp only [hasSub, Bool.or_eq_true] at h
    rcases h with h1 | h2
    · have h1' : startsW p ((c :: A') ++ R) = true := by rw [List.cons_append]; exact h1
      by_cases hlen : p.length ≤ (c :: A').length
      · exact Or.inl (hasSub_of_startsW _ _ (startsW_append_of_le p (c :: A') R h1' hlen))
      · push_neg at hlen
        refine Or.inr (Or.inr ⟨(c :: A').length, by simp, hlen, ?_, ?_⟩)
        · rw [take_eq_of_startsW p (c :: A') R h1' (le_of_lt hlen)]
        · exact startsW_drop_append p (c :: A') R h1' (le_of_lt hlen)
    · rcases ih h2 with hA | hR | ⟨u, hu0, hup, hsuf, hst⟩
      · exact Or.inl (hasSub_cons p c A' hA)
      · exact Or.inr (Or.inl hR)
      · exact Or.inr (Or.inr ⟨u, hu0, hup, hsuf.trans (List.suffix_cons c A'), hst⟩)

/-- If a nonempty suffix of `b₁` is a prefix of a replacement's output, it
was already a prefix of the input: under the side conditions an occurrence
can never begin inside inserted replacement text. -/
theorem replace_prefix_reflect (b₁ b₂ X : Str)
    (h1 : hasSub b₁ X = false)
    (h3 : ∀ u, u < b₁.length → 0 < u → startsW (b₁.drop u) X = false)
    (h5 : hasSub X b₁ = false) :
    ∀ (fuel : Nat) (s : Str) (u : Nat), u < b₁.length →
      startsW (b₁.drop u) (pyReplaceFuel fuel s b₂ X) = true →
      startsW (b₁.drop u) s = true := by
  intro fuel
  induction fuel with
  | zero => intro s u _ hst; exact hst
  | succ n ih =>
    intro s u hu hst
    cases s with
    | nil => exact hst
    | cons c rest =>
      by_cases hm : (b₂ ≠ [] && startsW b₂ (c :: rest)) = true
      · exfalso
        simp only [pyReplaceFuel] at hst
        rw [if_pos hm] at hst
        by_cases hcmp : (b₁.drop u).length ≤ X.length
        · have hpX := startsW_append_of_le _ X _ hst hcmp
          rcases Nat.eq_zero_or_pos u with h0 | hpos
          · subst h0
            rw [List.drop_zero] at hpX
            have hx := hasSub_of_startsW _ _ hpX
            rw [h1] at hx
            exact Bool.noConfusion hx
          · rw [h3 u hu hpos] at hpX
            exact Bool.noConfusion hpX
        · push_neg at hcmp
          have hXp := startsW_prefix_of_append _ X _ hst (le_of_lt hcmp)
          have hx := hasSub_drop_le X b₁ u (hasSub_of_startsW _ _ hXp)
          rw [h5] at hx
          exact Bool.noConfusion hx
      · simp only [pyReplaceFuel] at hst
        rw [if_neg hm] at hst
        have hne : b₁.drop u ≠ [] := by
          intro hx
          have := congrArg List.length hx
          simp only [List.length_drop, List.length_nil] at this
          omega
        obtain ⟨hh, ht⟩ := startsW_cons_elim _ c _ hne hst
        have hdd : (b₁.drop u).drop 1 = b₁.drop (u + 1) := by
          rw [List.drop_drop]
        have htail : startsW (b₁.drop (u + 1)) rest = true := by
          by_cases hlt : u + 1 < b₁.length
          · rw [hdd] at ht
            exact ih rest (u + 1) hlt ht
          · rw [List.drop_eq_nil_of_le (show b₁.length ≤ u + 1 by omega)]
            exact startsW_nil rest
        refine startsW_cons_intro _ c rest hne hh ?_
        rw [hdd]
        exact htail

/-- Replacing every occurrence of `b` with `X` leaves no occurrence of `b`:
`b` does not occur in `X`, no nonempty proper prefix of `b` ends `X`, no
nonempty proper suffix of `b` starts `X`, and `X` does not occur in `b`. -/
theorem replace_eliminates (b X : Str) (hb : b ≠ [])
    (h1 : hasSub b X = false)
    (h2 : ∀ u, u < b.length → 0 < u → ¬ (b.take u <:+ X))
    (h3 : ∀ u, u < b.length → 0 < u → startsW (b.drop u) X = false)
    (h5 : hasSub X b = false) :
    ∀ (fuel : Nat) (s : Str), s.length ≤ fuel →
      hasSub b (pyReplaceFuel fuel s b X) = false := by
  have hb1 : 1 ≤ b.length := by
    cases b with
    | nil => exact absurd rfl hb
    | cons _ _ => simp
  have hbnil : hasSub b [] = false := by
    cases b with
    | nil => exact absurd rfl hb
    | cons d b' => rfl
  intro fuel
  induction fuel with
  | zero =>
    intro s hs
    cases s with
    | nil => exact hbnil
    | cons c rest => simp at hs
  | succ n ih =>
    intro s hs
    cases s with
    | nil => exact hbnil
    | cons c rest =>
      by_cases hm : (b ≠ [] && startsW b (c :: rest)) = true
      · simp only [pyReplaceFuel]
        rw [if_pos hm]
        by_contra hcon
        have hcon' := bool_ne_false _ hcon
        rcases hasSub_append_split b X _ hcon' with hx | hr | ⟨u, hu0, hub, hsuf, _⟩
        · rw [h1] at hx; exact Bool.noConfusion hx
        · have hlenR : ((c :: rest).drop b.length).length ≤ n := by
            simp only [List.length_drop, List.length_cons]
            simp only [List.length_cons] at hs
            omega
          rw [ih _ hlenR] at hr
          exact Bool.noConfusion hr
        · exact h2 u hub hu0 hsuf
      · simp only [pyReplaceFuel]
        rw [if_neg hm]
        have hR := ih rest (by simp only [List.length_cons] at hs; omega)
        simp only [hasSub]
        rw [hR, Bool.or_false]
        by_contra hsw
        have hsw' := bool_ne_false _ hsw
        obtain ⟨hh, ht⟩ := startsW_cons_elim b c _ hb hsw'
        have htail : startsW (b.drop 1) rest = true := by
          by_cases hlt : 1 < b.length
          · exact replace_prefix_reflect b b X h1 h3 h5 n rest 1 hlt ht
          · rw [List.drop_eq_nil_of_le (show b.length ≤ 1 by omega)]
            exact startsW_nil rest
        have hcontra := startsW_cons_intro b c rest hb hh htail
        exact hm (by simp only [Bool.and_eq_true, decide_eq_true_eq]; exact ⟨hb, hcontra⟩)

/-- Replacing occurrences of `b₂` cannot introduce an occurrence of an
absent `b₁`, under the same side conditions between `b₁` and `X`. -/
theorem replace_preserves_absence (b₁ b₂ X : Str) (hb1 : b₁ ≠ [])
    (h1 : hasSub b₁ X = false)
    (h2 : ∀ u, u < b₁.length → 0 < u → ¬ (b₁.take u <:+ X))
    (h3 : ∀ u, u < b₁.length → 0 < u → startsW (b₁.drop u) X = false)
    (h5 : hasSub X b₁ = false) :
    ∀ (fuel : Nat) (s : Str), hasSub b₁ s = false →
      hasSub b₁ (pyReplaceFuel fuel s b₂ X) = false := by
  intro fuel
  induction fuel with
  | zero => intro s hclean; exact hclean
  | succ n ih =>
    intro s hclean
    cases s with
    | nil => exact hclean
    | cons c rest =>
      have hsplit := bool_or_false_split _ _ (by simpa only [hasSub] using hclean)
      by_cases hm : (b₂ ≠ [] && startsW b₂ (c :: rest)) = true
      · simp only [pyReplaceFuel]
        rw [if_pos hm]
        by_contra hcon
        have hcon' := bool_ne_false _ hcon
        rcases hasSub_append_split b₁ X _ hcon' with hx | hr | ⟨u, hu0, hub, hsuf, _⟩
        · rw [h1] at hx; exact Bool.noConfusion hx
        · have hcd : hasSub b₁ ((c :: rest).drop b₂.length) = false := by
            by_contra hd
            have := hasSub_drop_le b₁ (c :: rest) b₂.length (bool_ne_false _ hd)
            rw [hclean] at this
            exact Bool.noConfusion this
          rw [ih _ hcd] at hr
          exact Bool.noConfusion hr
        · exact h2 u hub hu0 hsuf
      · simp only [pyReplaceFuel]
        rw [if_neg hm]
        simp only [hasSub]
        rw [ih rest hsplit.2, Bool.or_false]
        by_contra hsw
        have hsw' := bool_ne_false _ hsw
        obtain ⟨hh, ht⟩ := startsW_cons_elim b₁ c _ hb1 hsw'
        have hb1len : 1 ≤ b₁.length := by
          cases b₁ with
          | nil => exact absurd rfl hb1
          | cons _ _ => simp
        have htail : startsW (b₁.drop 1) rest = true := by
          by_cases hlt : 1 < b₁.length
          · exact replace_prefix_reflect b₁ b₂ X h1 h3 h5 n rest 1 hlt ht
          · rw [List.drop_eq_nil_of_le (show b₁.length ≤ 1 by omega)]
            exact startsW_nil rest
        have hcontra := startsW_cons_intro b₁ c rest hb1 hh htail
        rw [hsplit.1] at hcontra
        exact Bool.noConfusion hcontra

/-- Side conditions under which replacing `b` by `X` neither misses an
occurrence of `b` nor lets one be manufactured across a boundary. -/
abbrev safePair (b X : Str) : Prop :=
  b ≠ [] ∧ hasSub b X = false ∧ hasSub X b = false ∧
  (∀ u, u < b.length → 0 < u → ¬ (b.take u <:+ X)) ∧
  (∀ u, u < b.length → 0 < u → startsW (b.drop u) X = false)

/-- Through the three-pass fold of `rewrite_model_in_response`, each backend
id is eliminated by its own pass and not reintroduced by the later ones. -/
theorem rewrite_eliminates_backend (body X : Str)
    (hs1 : safePair (str "llama3.3:latest") X)
    (hs2 : safePair (str "qwen2.5-coder:32b") X)
    (hs3 : safePair (str "phi4:latest") X) :
    ∀ b ∈ REVERSE_MAP.map Prod.fst,
      hasSub b (rewrite_model_in_response body X) = false := by
  obtain ⟨hb1, h11, h51, h21, h31⟩ := hs1
  obtain ⟨hb2, h12, h52, h22, h32⟩ := hs2
  obtain ⟨hb3, h13, h53, h23, h33⟩ := hs3
  have hrw : rewrite_model_in_response body X
      = pyReplace (pyReplace (pyReplace body (str "llama3.3:latest") X)
          (str "qwen2.5-coder:32b") X) (str "phi4:latest") X := rfl
  have e1 : hasSub (str "llama3.3:latest")
      (pyReplace body (str "llama3.3:latest") X) = false :=
    replace_eliminates _ X hb1 h11 h21 h31 h51 _ _ le_rfl
  have p12 : hasSub (str "llama3.3:latest")
      (pyReplace (pyReplace body (str "llama3.3:latest") X)
        (str "qwen2.5-coder:32b") X) = false :=
    replace_preserves_absence _ _ X hb1 h11 h21 h31 h51 _ _ e1
  have e2 : hasSub (str "qwen2.5-coder:32b")
      (pyReplace (pyReplace body (str "llama3.3:latest") X)
        (str "qwen2.5-coder:32b") X) = false :=
    replace_eliminates _ X hb2 h12 h22 h32 h52 _ _ le_rfl
  intro b hb
  simp only [REVERSE_MAP, List.map_cons, List.map_nil, List.mem_cons,
    List.not_mem_nil, or_false] at hb
  rcases hb with rfl | rfl | rfl
  · rw [hrw]
    exact replace_preserves_absence _ _ X hb1 h11 h21 h31 h51 _ _ p12
  · rw [hrw]
    exact replace_preserves_absence _ _ X hb2 h12 h22 h32 h52 _ _ e2
  · rw [hrw]
    exact replace_eliminates _ X hb3 h13 h23 h33 h53 _ _ le_rfl

/-- C3 amended: the inbound rewrite replaces every occurrence of every known
backend id with the *request's* client-facing model id (`original_model`),
whichever backend id it is — for every response body and every configured
client id, no backend id survives the rewrite anywhere in the body; in
particular a request encoded with client id `X` whose response contains
`X`'s own mapped backend id yields `X` verbatim in the final body. -/
theorem c3_amended :
    (∀ (body : Str), ∀ X ∈ MODEL_MAP.map Prod.fst, ∀ b ∈ REVERSE_MAP.map Prod.fst,
      hasSub b (rewrite_model_in_response body X) = false)
    ∧ (∀ X ∈ MODEL_MAP.map Prod.fst,
        (∀ b ∈ REVERSE_MAP.map Prod.fst, rewrite_model_in_response b X = X)
        ∧ rewrite_model_in_response
            (str "model: " ++ (lookupStr MODEL_MAP X).getD [] ++ str " ok") X
          = str "model: " ++ X ++ str " ok") := by
  constructor
  · intro body X hX
    simp only [List.map_cons, MODEL_MAP, List.map_nil, List.mem_cons,
      List.not_mem_nil, or_false] at hX
    rcases hX with rfl | rfl | rfl | rfl | rfl <;>
      exact rewrite_eliminates_backend body _ (by decide) (by decide) (by decide)
  · decide

/-- Witness for `c3_amended`: the backend id `phi4:latest` embedded in a
longer body does not survive the rewrite for the client id `gpt-5.2`, and
the round trip at `gpt-5.2` is exact. -/
theorem c3_amended_witness :
    hasSub (str "phi4:latest")
      (rewrite_model_in_response (str "note: phi4:latest answered") (str "gpt-5.2"))
      = false
    ∧ rewrite_model_in_response
        (str "model: " ++ (lookupStr MODEL_MAP (str "gpt-5.2")).getD [] ++ str " ok")
        (str "gpt-5.2")
      = str "model: " ++ str "gpt-5.2" ++ str " ok" :=
  ⟨c3_amended.1 (str "note: phi4:latest answered") (str "gpt-5.2") (by decide)
     (str "phi4:latest") (by decide),
   (c3_amended.2 (str "gpt-5.2") (by decide)).2⟩

/-! ## Claim C4 -/

/-- Shorthand: a plain user message. -/
def msgU (s : String) : Message := ⟨str "user", .str (str s), none, none, none⟩

/-- Shorthand: a plain system message. -/
def msgSys (s : String) : Message := ⟨str "system", .str (str s), none, none, none⟩

/-- Modelled from the claim's words (for comparison with the code): the
trimmed result keeps all system/developer turns and the last `MAX_HISTORY`
conversation turns *in original relative order*, i.e. it is the subsequence
of the input consisting of exactly those messages. -/
def trimmedPerClaim (msgs : List Message) : List Message :=
  let convo := msgs.filter fun m => !isSysDev m
  let keep := convo.drop (convo.length - MAX_HISTORY)
  msgs.filter fun m => isSysDev m || decide (m ∈ keep)

/-- C4 counterexample: with five conversation turns followed by one system
turn, the code returns the system turn *first* (it concatenates all
system/developer messages before the retained conversation window), so the
result is not in original relative order as the claim states. -/
theorem c4_counterexample :
    MAX_HISTORY <
      (([msgU "a", msgU "b", msgU "c", msgU "d", msgU "e", msgSys "s"].filter
        fun m => !isSysDev m)).length
    ∧ trimMessages [msgU "a", msgU "b", msgU "c", msgU "d", msgU "e", msgSys "s"]
        ≠ trimmedPerClaim [msgU "a", msgU "b", msgU "c", msgU "d", msgU "e", msgSys "s"]
    ∧ trimMessages [msgU "a", msgU "b", msgU "c", msgU "d", msgU "e", msgSys "s"]
        = [msgSys "s", msgU "b", msgU "c", msgU "d", msgU "e"]
    ∧ trimmedPerClaim [msgU "a", msgU "b", msgU "c", msgU "d", msgU "e", msgSys "s"]
        = [msgU "b", msgU "c", msgU "d", msgU "e", msgSys "s"] := by
  decide

/-- C4 amended: when there are more than `MAX_HISTORY` conversation turns,
the result is all system/developer turns (in their original relative order)
followed by exactly the last `MAX_HISTORY` conversation turns (in their
original relative order), oldest conversation turns dropped first; each of
the two blocks is a subsequence of the input, but the blocks are
concatenated system-first rather than interleaved in original order. -/
theorem c4_amended (msgs : List Message)
    (h : MAX_HISTORY < (msgs.filter fun m => !isSysDev m).length) :
    trimMessages msgs
      = msgs.filter isSysDev ++ (msgs.filter fun m => !isSysDev m).drop
          ((msgs.filter fun m => !isSysDev m).length - MAX_HISTORY)
    ∧ ((msgs.filter fun m => !isSysDev m).drop
          ((msgs.filter fun m => !isSysDev m).length - MAX_HISTORY)).length = MAX_HISTORY
    ∧ (msgs.filter isSysDev).Sublist msgs
    ∧ ((msgs.filter fun m => !isSysDev m).drop
          ((msgs.filter fun m => !isSysDev m).length - MAX_HISTORY)).Sublist msgs := by
  refine ⟨?_, ?_, ?_, ?_⟩
  · simp only [trimMessages, if_pos h]
  · rw [List.length_drop]
    omega
  · exact List.filter_sublist _
  · exact (List.drop_sublist _ _).trans (List.filter_sublist _)

/-- Witness for `c4_amended` at five conversation turns. -/
theorem c4_amended_witness :
    (([msgU "a", msgU "b", msgU "c", msgU "d", msgU "e"].filter fun m => !isSysDev m).drop
        ((([msgU "a", msgU "b", msgU "c", msgU "d", msgU "e"].filter
            fun m => !isSysDev m)).length - MAX_HISTORY)).length = MAX_HISTORY :=
  (c4_amended [msgU "a", msgU "b", msgU "c", msgU "d", msgU "e"] (by decide)).2.1

/-! ## Claim C7 -/

/-- C7: response text containing the line `TOOL_CALL: exec foo bar` with a
registered `exec` tool (first parameter `command`) yields exactly one
ToolCall named `exec` with the single-key argument object
`{command: "foo bar"}`, and the cleaned content has the marker line
removed; when no strategy matches the text is returned unchanged with no
tool calls. -/
theorem c7_tool_call_extraction :
    convert_text_to_tool_calls (str "Sure.\nTOOL_CALL: exec foo bar\nThanks.")
        [⟨str "function", str "exec", [str "command"]⟩]
      = (str "Sure.\n\nThanks.",
         some [⟨str "call_exec_0", str "function", str "exec",
                [(str "command", ArgV.s (str "foo bar"))]⟩])
    ∧ (∀ (content : Str) (defs : List ToolDef),
        toolCallFindall content = [] → mdFindall content = [] → bareFindall content = [] →
        convert_text_to_tool_calls content defs = (content, none)) := by
  refine ⟨by decide, ?_⟩
  intro content defs h1 h2 h3
  by_cases hk : str "exec" ∈ knownToolNames defs
  · simp [convert_text_to_tool_calls, h1, h2, h3, hk]
  · simp [convert_text_to_tool_calls, h1, hk]

/-- Witness for the no-match part of `c7_tool_call_extraction`. -/
theorem c7_witness :
    convert_text_to_tool_calls (str "hello there") [synthExecDef]
      = (str "hello there", none) :=
  c7_tool_call_extraction.2 (str "hello there") [synthExecDef] rfl rfl rfl

/-! ## Claim C9 -/

/-- Splitting never yields an empty line list. -/
theorem splitNl_ne_nil (s : Str) : splitNl s ≠ [] := by
  cases s with
  | nil => simp [splitNl]
  | cons c rest =>
    cases hsp : splitNl rest with
    | nil => simp [splitNl, hsp]
    | cons h t =>
      simp only [splitNl, hsp]
      split <;> simp

/-- Pushing a character onto the first line commutes with joining. -/
theorem joinNl_consHead (c : Char) (h : Str) (t : List Str) :
    joinNl ((c :: h) :: t) = c :: joinNl (h :: t) := by
  cases t <;> simp [joinNl]

/-- Joining the split lines recovers the string. -/
theorem joinNl_splitNl (s : Str) : joinNl (splitNl s) = s := by
  induction s with
  | nil => rfl
  | cons c rest ih =>
    cases hsp : splitNl rest with
    | nil => exact absurd hsp (splitNl_ne_nil rest)
    | cons h t =>
      simp only [splitNl, hsp]
      by_cases hc : c = '\n'
      · subst hc
        rw [if_pos rfl]
        rw [hsp] at ih
        simpa [joinNl] using ih
      · rw [if_neg hc, joinNl_consHead]
        rw [hsp] at ih
        rw [ih]

/-- Substring occurrence is preserved by any left extension. -/
theorem hasSub_append_left (p pre s : Str) (h : hasSub p s = true) :
    hasSub p (pre ++ s) = true := by
  induction pre with
  | nil => simpa using h
  | cons c t ih => exact hasSub_cons p c (t ++ s) ih

/-- No run of three or more newline characters occurs in `s`. -/
def noTripleNl (s : Str) : Bool := !(hasSub (str "\n\n\n") s)

/-- `s` is untouched by the NO_REPLY substitutions and the newline
collapsing: no line matches either pattern and no triple newline occurs. -/
def noReplyFree (s : Str) : Bool :=
  (splitNl s).all (fun l => !(noReplyLine l)) && noTripleNl s

/-- `collapseNlAux` is the identity (modulo the pending-newline prefix) on
strings without triple newlines. -/
theorem collapseNlAux_id :
    ∀ (s : Str) (k : Nat), k ≤ 2 → noTripleNl (List.replicate k '\n' ++ s) = true →
      collapseNlAux k s = List.replicate k '\n' ++ s := by
  intro s
  induction s with
  | nil =>
    intro k hk _
    have : ¬ k ≥ 3 := by omega
    simp [collapseNlAux, this]
  | cons c rest ih =>
    intro k hk h
    by_cases hc : c = '\n'
    · subst hc
      have hk1 : k ≤ 1 := by
        by_contra hgt
        have hk2 : k = 2 := by omega
        subst hk2
        have hx : hasSub (str "\n\n\n") ('\n' :: '\n' :: '\n' :: rest) = true := by
          simp [hasSub, startsW, str]
        simp [noTripleNl, hx] at h
      have hrepl : List.replicate k '\n' ++ '\n' :: rest
          = List.replicate (k + 1) '\n' ++ rest := by
        rw [List.replicate_succ']
        simp
      rw [collapseNlAux, if_pos rfl, hrepl]
      exact ih (k + 1) (by omega) (by rw [← hrepl]; exact h)
    · have hstep : collapseNlAux k (c :: rest)
          = List.replicate (if k ≥ 3 then 2 else k) '\n' ++ c :: collapseNlAux 0 rest := by
        rw [collapseNlAux, if_neg hc]
      have hk3 : ¬ k ≥ 3 := by omega
      rw [hstep, if_neg hk3]
      have hrest : noTripleNl rest = true := by
        by_contra hr
        have h1 : hasSub (str "\n\n\n") rest = true := by
          simpa [noTripleNl] using hr
        have h2 := hasSub_append_left (str "\n\n\n") (List.replicate k '\n')
          (c :: rest) (hasSub_cons _ c rest h1)
        simp [noTripleNl, h2] at h
      rw [ih 0 (by omega) (by simpa using hrest)]
      simp

/-- `collapseNl` is the identity on strings without triple newlines. -/
theorem collapseNl_id (s : Str) (h : noTripleNl s = true) : collapseNl s = s := by
  have := collapseNlAux_id s 0 (by omega) (by simpa using h)
  simpa [collapseNl] using this

/-- The substitution-plus-collapse core is the identity on NO_REPLY-free
text. -/
theorem strip_core_id (s : Str) (h : noReplyFree s = true) : strip_no_reply_core s = s := by
  obtain ⟨h1, h2⟩ : (splitNl s).all (fun l => !(noReplyLine l)) = true ∧ noTripleNl s = true := by
    simpa [noReplyFree, Bool.and_eq_true] using h
  have hmap : ∀ ls : List Str, ls.all (fun l => !(noReplyLine l)) = true →
      ls.map (fun l => if noReplyLine l then [] else l) = ls := by
    intro ls hall
    induction ls with
    | nil => rfl
    | cons a t iht =>
      simp only [List.all_cons, Bool.and_eq_true] at hall
      simp only [List.map_cons, iht hall.2]
      rw [if_neg]
      simpa using hall.1
  unfold strip_no_reply_core
  rw [hmap _ h1, joinNl_splitNl, collapseNl_id s h2]

/-- C9: string content of a system/developer message on the local path gets
the fixed override instruction appended after NO_REPLY stripping, and the
append is unconditional — on NO_REPLY-free text the result is exactly the
original text plus `SYSTEM_OVERRIDE`; non-string content is returned
unchanged by the stripper. -/
theorem c9_system_override :
    (∀ s : Str, strip_no_reply_from_content (.str s)
        = .str (strip_no_reply_core s ++ SYSTEM_OVERRIDE))
    ∧ (∀ c : Content, (∀ s, c ≠ .str s) → strip_no_reply_from_content c = c)
    ∧ (∀ s : Str, noReplyFree s = true →
        strip_no_reply_from_content (.str s) = .str (s ++ SYSTEM_OVERRIDE))
    ∧ (∀ m : Message, isSysDev m = true → ∀ s, m.content = .str s →
        (cleanMessage m).content = .str (strip_no_reply_core s ++ SYSTEM_OVERRIDE)) := by
  refine ⟨fun s => rfl, ?_, ?_, ?_⟩
  · intro c h
    cases c with
    | str s => exact absurd rfl (h s)
    | parts ps => rfl
    | null => rfl
  · intro s h
    simp [strip_no_reply_from_content, strip_core_id s h]
  · intro m hm s hc
    rcases m with ⟨role, c0, a, b, nm⟩
    simp only at hc
    subst hc
    have hrole : role = str "system" ∨ role = str "developer" := by
      simpa [isSysDev, Bool.or_eq_true, decide_eq_true_eq] using hm
    rcases hrole with h1 | h1 <;> subst h1 <;> rfl

/-- Witness for `c9_system_override`: the stripper on NO_REPLY-free text
and on non-string content, and the cleaner on a system message. -/
theorem c9_witness :
    strip_no_reply_from_content (.str (str "Hello world"))
      = .str (str "Hello world" ++ SYSTEM_OVERRIDE)
    ∧ strip_no_reply_from_content .null = .null
    ∧ (cleanMessage (msgSys "Hi")).content
        = .str (strip_no_reply_core (str "Hi") ++ SYSTEM_OVERRIDE) :=
  ⟨c9_system_override.2.2.1 (str "Hello world") (by decide),
   c9_system_override.2.1 .null (fun s h => by cases h),
   c9_system_override.2.2.2 (msgSys "Hi") (by decide) (str "Hi") rfl⟩

/-! ## Fallback branch lemmas (shared by C5, C6, C8) -/

/-- Calls returned by the skill-list branch: named `exec`, id
`call_skills_0`. -/
theorem fbSkillList_mem (s : Str) (tcs : List ToolCall) (c : ToolCall)
    (h : fbSkillList s = some tcs) (hc : c ∈ tcs) :
    c.name = str "exec" ∧ c.id = str "call_skills_0" := by
  unfold fbSkillList at h
  cases hm : anchSearchCap skillListAlt s with
  | none => rw [hm] at h; cases h
  | some w =>
    rw [hm] at h
    simp only [Option.some.injEq] at h
    subst h
    simp only [List.mem_singleton] at hc
    subst hc
    exact ⟨rfl, rfl⟩

/-- Calls returned by the skill-enable branch: named `exec`, id
`call_skills_0`. -/
theorem fbEnable_mem (s : Str) (tcs : List ToolCall) (c : ToolCall)
    (h : fbEnable s = some tcs) (hc : c ∈ tcs) :
    c.name = str "exec" ∧ c.id = str "call_skills_0" := by
  unfold fbEnable at h
  cases hm : anchSearchCap (kwWordAlt (str "enable")) s with
  | none => rw [hm] at h; cases h
  | some w =>
    rw [hm] at h
    simp only [Option.some.injEq] at h
    subst h
    simp only [List.mem_singleton] at hc
    subst hc
    exact ⟨rfl, rfl⟩

/-- Calls returned by the skill-disable branch: named `exec`, id
`call_skills_0`. -/
theorem fbDisable_mem (s : Str) (tcs : List ToolCall) (c : ToolCall)
    (h : fbDisable s = some tcs) (hc : c ∈ tcs) :
    c.name = str "exec" ∧ c.id = str "call_skills_0" := by
  unfold fbDisable at h
  cases hm : anchSearchCap (kwWordAlt (str "disable")) s with
  | none => rw [hm] at h; cases h
  | some w =>
    rw [hm] at h
    simp only [Option.some.injEq] at h
    subst h
    simp only [List.mem_singleton] at hc
    subst hc
    exact ⟨rfl, rfl⟩

/-- Calls returned by the xcite branch: named `exec`, id
`call_fallback_0`. -/
theorem fbXcite_mem (s : Str) (tcs : List ToolCall) (c : ToolCall)
    (h : fbXcite s = some tcs) (hc : c ∈ tcs) :
    c.name = str "exec" ∧ c.id = str "call_fallback_0" := by
  unfold fbXcite at h
  cases hm : XCITE_FALLBACKS.find? (fun p => s = p.1 || startsW (p.1 ++ [' ']) s) with
  | none => rw [hm] at h; cases h
  | some p =>
    rw [hm] at h
    simp only [Option.map_some', Option.some.injEq] at h
    subst h
    simp only [List.mem_singleton] at hc
    subst hc
    exact ⟨rfl, rfl⟩

/-- Calls returned by the scout branch: named `exec`, id
`call_fallback_0`. -/
theorem fbScout_mem (s : Str) (tcs : List ToolCall) (c : ToolCall)
    (h : fbScout s = some tcs) (hc : c ∈ tcs) :
    c.name = str "exec" ∧ c.id = str "call_fallback_0" := by
  unfold fbScout at h
  cases hm : scoutMatch s with
  | none => rw [hm] at h; cases h
  | some seed =>
    rw [hm] at h
    simp only [Option.map_some', Option.some.injEq] at h
    subst h
    simp only [List.mem_singleton] at hc
    subst hc
    exact ⟨rfl, rfl⟩

/-- Calls returned by the consensus branch: named `exec`, id
`call_consensus_0`. -/
theorem fbConsensus_mem (um s : Str) (chat : Option Str) (ok tok : Str)
    (tcs : List ToolCall) (c : ToolCall)
    (h : fbConsensus um s chat ok tok = some tcs) (hc : c ∈ tcs) :
    c.name = str "exec" ∧ c.id = str "call_consensus_0" := by
  unfold fbConsensus at h
  by_cases hmk : consensusExecMarkers.any (fun m => hasSub m um) = true
  · rw [if_pos hmk] at h; cases h
  · rw [if_neg hmk] at h
    cases hm : anchSearchCap consensusAlt s with
    | none => rw [hm] at h; cases h
    | some cap =>
      rw [hm] at h
      simp only [Option.some.injEq] at h
      subst h
      simp only [List.mem_singleton] at hc
      subst hc
      exact ⟨rfl, rfl⟩

/-- The consensus branch never fires on a message containing an exec-result
marker. -/
theorem fbConsensus_marker_none (um s : Str) (chat : Option Str) (ok tok : Str)
    (h : hasSub (str "Tool result") um = true) :
    fbConsensus um s chat ok tok = none := by
  have hany : consensusExecMarkers.any (fun m => hasSub m um) = true :=
    List.any_eq_true.mpr ⟨str "Tool result", by simp [consensusExecMarkers], h⟩
  unfold fbConsensus
  rw [if_pos hany]

/-- Every call produced by `fallback_tool_call` is named `exec`, and the
definitions handed to it contain an `exec` tool. -/
theorem fallback_calls_exec (um : Str) (defs : List ToolDef) (chat : Option Str)
    (ok tok : Str) (tcs : List ToolCall) (c : ToolCall)
    (h : fallback_tool_call um defs chat ok tok = some tcs) (hc : c ∈ tcs) :
    c.name = str "exec" ∧ hasExecTool defs = true := by
  unfold fallback_tool_call at h
  by_cases hd : defs = []
  · rw [if_pos hd] at h; cases h
  · rw [if_neg hd] at h
    by_cases he : hasExecTool defs = false
    · rw [if_pos he] at h; cases h
    · rw [if_neg he] at h
      have hexec : hasExecTool defs = true := by
        cases hv : hasExecTool defs
        · exact absurd hv he
        · rfl
      refine ⟨?_, hexec⟩
      cases h1 : fbSkillList (pystrip um) with
      | some r =>
        rw [h1] at h
        simp only [Option.some.injEq] at h
        subst h
        exact (fbSkillList_mem _ _ _ h1 hc).1
      | none =>
        rw [h1] at h
        cases h2 : fbEnable (pystrip um) with
        | some r =>
          rw [h2] at h
          simp only [Option.some.injEq] at h
          subst h
          exact (fbEnable_mem _ _ _ h2 hc).1
        | none =>
          rw [h2] at h
          cases h3 : fbDisable (pystrip um) with
          | some r =>
            rw [h3] at h
            simp only [Option.some.injEq] at h
            subst h
            exact (fbDisable_mem _ _ _ h3 hc).1
          | none =>
            rw [h3] at h
            cases h4 : fbXcite (lowerS (pystrip um)) with
            | some r =>
              rw [h4] at h
              simp only [Option.some.injEq] at h
              subst h
              exact (fbXcite_mem _ _ _ h4 hc).1
            | none =>
              rw [h4] at h
              cases h5 : fbScout (lowerS (pystrip um)) with
              | some r =>
                rw [h5] at h
                simp only [Option.some.injEq] at h
                subst h
                exact (fbScout_mem _ _ _ h5 hc).1
              | none =>
                rw [h5] at h
                exact (fbConsensus_mem _ _ _ _ _ _ _ h hc).1

/-! ## Claim C5 -/

/-- C5 counterexample: the claim says every ToolCall in a response names a
tool from the ToolDefinition set supplied by the client in the same request
cycle.  A request whose latest user turn is `stats` and that supplies *no*
tools (lines 557-559 substitute a synthetic exec-only registry) is answered
with a forced response carrying a ToolCall named `exec`, although the
client-supplied tool set is empty. -/
theorem c5_counterexample :
    doPOST (some ⟨some (str "gpt-5.2"), false, [msgU "stats"], none⟩) [] []
      = .forced false
          [⟨str "call_fallback_0", str "function", str "exec",
            [(str "command",
              ArgV.s (str "cd /data/.openclaw/skills/xcite-bot && node scripts/prospect-store.mjs stats"))]⟩]
    ∧ knownToolNames
        ((⟨some (str "gpt-5.2"), false, [msgU "stats"], none⟩ : ChatRequest).tools.getD [])
      = []
    ∧ str "exec" ∉ ([] : List Str) := by
  refine ⟨by decide, rfl, by simp⟩

/-- C5 amended: every ToolCall extracted from response text names a tool in
the definitions passed to the extractor, and every forced fallback call is
named `exec` with an `exec` tool present in the definitions passed to the
fallback; the invariant therefore holds relative to the registry actually
used, but on the no-client-tools path of `do_POST` that registry is the
synthetic exec-only set rather than the client-supplied (empty) one. -/
theorem c5_amended :
    (∀ (content : Str) (defs : List ToolDef) (tcs : List ToolCall) (c : ToolCall),
      (convert_text_to_tool_calls content defs).2 = some tcs → c ∈ tcs →
      c.name ∈ knownToolNames defs)
    ∧ (∀ (um : Str) (defs : List ToolDef) (chat : Option Str) (ok tok : Str)
        (tcs : List ToolCall) (c : ToolCall),
      fallback_tool_call um defs chat ok tok = some tcs → c ∈ tcs →
      c.name = str "exec" ∧ hasExecTool defs = true) := by
  refine ⟨?_, fun um defs chat ok tok tcs c h hc => fallback_calls_exec um defs chat ok tok tcs c h hc⟩
  intro content defs tcs c h hc
  unfold convert_text_to_tool_calls at h
  by_cases h1 : toolCallFindall content ≠ [] ∧ pattern1Calls content defs ≠ []
  · rw [if_pos h1] at h
    simp only [Option.some.injEq] at h
    subst h
    obtain ⟨p, _, hf⟩ := List.mem_filterMap.mp hc
    by_cases hwk : p.2.1 ∈ knownToolNames defs
    · rw [if_pos hwk] at hf
      simp only [Option.some.injEq] at hf
      subst hf
      exact hwk
    · rw [if_neg hwk] at hf
      cases hf
  · rw [if_neg h1] at h
    by_cases hk : str "exec" ∈ knownToolNames defs
    · rw [if_pos hk] at h
      by_cases hmd : mdFindall content ≠ []
      · rw [if_pos hmd] at h
        simp only [Option.some.injEq] at h
        subst h
        obtain ⟨p, _, hf⟩ := List.mem_map.mp hc
        subst hf
        exact hk
      · rw [if_neg hmd] at h
        by_cases hbare : bareFindall content ≠ []
        · rw [if_pos hbare] at h
          simp only [Option.some.injEq] at h
          subst h
          obtain ⟨p, _, hf⟩ := List.mem_map.mp hc
          subst hf
          exact hk
        · rw [if_neg hbare] at h
          cases h
    · rw [if_neg hk] at h
      cases h

/-- Witness for `c5_amended` at concrete inputs: the extractor on a
`TOOL_CALL:` line, and the fallback on `stats` against the synthetic
registry. -/
theorem c5_amended_witness :
    (⟨str "call_exec_0", str "function", str "exec",
       [(str "command", ArgV.s (str "ls"))]⟩ : ToolCall).name
        ∈ knownToolNames [synthExecDef]
    ∧ ((⟨str "call_fallback_0", str "function", str "exec",
         [(str "command",
           ArgV.s (str "cd /data/.openclaw/skills/xcite-bot && node scripts/prospect-store.mjs stats"))]⟩ : ToolCall).name
          = str "exec"
        ∧ hasExecTool [synthExecDef] = true) :=
  ⟨c5_amended.1 (str "TOOL_CALL: exec ls") [synthExecDef]
     [⟨str "call_exec_0", str "function", str "exec",
       [(str "command", ArgV.s (str "ls"))]⟩]
     ⟨str "call_exec_0", str "function", str "exec",
       [(str "command", ArgV.s (str "ls"))]⟩ (by decide) (by decide),
   c5_amended.2 (str "stats") [synthExecDef] none [] []
     [⟨str "call_fallback_0", str "function", str "exec",
       [(str "command",
         ArgV.s (str "cd /data/.openclaw/skills/xcite-bot && node scripts/prospect-store.mjs stats"))]⟩]
     ⟨str "call_fallback_0", str "function", str "exec",
       [(str "command",
         ArgV.s (str "cd /data/.openclaw/skills/xcite-bot && node scripts/prospect-store.mjs stats"))]⟩
     (by decide) (by decide)⟩

/-! ## Claim C6 -/

/-- A replayed history: the user said `skills` on turn *i*, the directive
fired (assistant turn with the skill-list call), and the resulting tool
result is now the newest turn. -/
def c6req : ChatRequest :=
  ⟨some (str "gpt-5.2"), false,
   [msgU "skills",
    ⟨str "assistant", .null,
     some [⟨str "call_skills_0", str "function", str "exec",
            [(str "command", ArgV.s (SKILL_MANAGER ++ str " list"))]⟩],
     none, none⟩,
    ⟨str "tool", .str (str "[1] skills-core: enabled"), none,
     some (str "call_skills_0"), some (str "exec")⟩],
   some [synthExecDef]⟩

/-- C6 counterexample: the claim says directive matching is skipped
entirely whenever the most recent turn is a tool result, so a directive
never re-fires on its own echo.  On `c6req` the `do_POST` shortcut is
indeed skipped, but the tool-result turn is rewritten into the user turn
`[Tool result from exec]: [1] skills-core: enabled`, which `_proxy` hands
back to `fallback_tool_call` (lines 864-866) with no tool-result guard;
the text `] skills-core` matches `SKILL_LIST_RE`, so the skill-list
directive fires again on the echo of its own effect. -/
theorem c6_counterexample :
    hasToolResultsFn c6req.messages = true
    ∧ isForced (doPOST (some c6req) [] []) = false
    ∧ postLastUser (doPOST (some c6req) [] [])
        = some (str "[Tool result from exec]: [1] skills-core: enabled")
    ∧ postTDefs (doPOST (some c6req) [] []) = [synthExecDef]
    ∧ responseForced [synthExecDef]
        (some (str "[Tool result from exec]: [1] skills-core: enabled")) [] []
      = some [⟨str "call_skills_0", str "function", str "exec",
              [(str "command", ArgV.s (SKILL_MANAGER ++ str " list"))]⟩] := by
  refine ⟨by decide, by decide, by decide, by decide, by decide⟩

/-- C6 amended: the guard exists only in `do_POST` — whenever the most
recent non-system turn is a tool result (or assistant-with-calls, or
carries `Exec completed`), the forced shortcut is skipped there; and the
consensus rule specifically can never re-fire on a rewritten tool-result
turn because such text contains the `Tool result` marker.  The re-match in
`_proxy` has no such guard, so other directives can re-fire on a
tool-result echo whose text happens to match a rule (see the
counterexample). -/
theorem c6_amended :
    (∀ (req : ChatRequest) (ok tok : Str), hasToolResultsFn req.messages = true →
      ∀ (s : Bool) (tcs : List ToolCall), doPOST (some req) ok tok ≠ .forced s tcs)
    ∧ (∀ (text : Str) (defs : List ToolDef) (chat : Option Str) (ok tok : Str)
        (tcs : List ToolCall) (c : ToolCall),
      hasSub (str "Tool result") text = true →
      fallback_tool_call text defs chat ok tok = some tcs → c ∈ tcs →
      c.id ≠ str "call_consensus_0") := by
  constructor
  · intro req ok tok h s tcs hcontra
    have hdec : decideForcedTc req ok tok = none := by
      unfold decideForcedTc
      simp [h]
    have hb : doPOSTBody req ok tok = .forced s tcs := hcontra
    unfold doPOSTBody at hb
    rw [hdec] at hb
    dsimp only at hb
    split at hb <;> cases hb
  · intro text defs chat ok tok tcs c hmk h hc
    unfold fallback_tool_call at h
    by_cases hd : defs = []
    · rw [if_pos hd] at h; cases h
    · rw [if_neg hd] at h
      by_cases he : hasExecTool defs = false
      · rw [if_pos he] at h; cases h
      · rw [if_neg he] at h
        cases h1 : fbSkillList (pystrip text) with
        | some r =>
          rw [h1] at h
          simp only [Option.some.injEq] at h
          subst h
          rw [(fbSkillList_mem _ _ _ h1 hc).2]
          decide
        | none =>
          rw [h1] at h
          cases h2 : fbEnable (pystrip text) with
          | some r =>
            rw [h2] at h
            simp only [Option.some.injEq] at h
            subst h
            rw [(fbEnable_mem _ _ _ h2 hc).2]
            decide
          | none =>
            rw [h2] at h
            cases h3 : fbDisable (pystrip text) with
            | some r =>
              rw [h3] at h
              simp only [Option.some.injEq] at h
              subst h
              rw [(fbDisable_mem _ _ _ h3 hc).2]
              decide
            | none =>
              rw [h3] at h
              cases h4 : fbXcite (lowerS (pystrip text)) with
              | some r =>
                rw [h4] at h
                simp only [Option.some.injEq] at h
                subst h
                rw [(fbXcite_mem _ _ _ h4 hc).2]
                decide
              | none =>
                rw [h4] at h
                cases h5 : fbScout (lowerS (pystrip text)) with
                | some r =>
                  rw [h5] at h
                  simp only [Option.some.injEq] at h
                  subst h
                  rw [(fbScout_mem _ _ _ h5 hc).2]
                  decide
                | none =>
                  rw [h5] at h
                  rw [fbConsensus_marker_none text (pystrip text) chat ok tok hmk] at h
                  cases h

/-- Witness for `c6_amended`: the do_POST guard on a request whose newest
turn is a tool result, and the consensus suppression on a rewritten
tool-result text on which another directive does fire. -/
theorem c6_amended_witness :
    doPOST (some ⟨some (str "gpt-5.2"), false,
        [⟨str "tool", .str (str "out"), none, none, some (str "exec")⟩], none⟩) [] []
      ≠ .forced false []
    ∧ (⟨str "call_skills_0", str "function", str "exec",
        [(str "command", ArgV.s (SKILL_MANAGER ++ str " list"))]⟩ : ToolCall).id
      ≠ str "call_consensus_0" :=
  ⟨c6_amended.1 ⟨some (str "gpt-5.2"), false,
      [⟨str "tool", .str (str "out"), none, none, some (str "exec")⟩], none⟩ [] []
      (by decide) false [],
   c6_amended.2 (str "[Tool result from exec]: [1] skills-core: enabled")
     [synthExecDef] none [] []
     [⟨str "call_skills_0", str "function", str "exec",
       [(str "command", ArgV.s (SKILL_MANAGER ++ str " list"))]⟩]
     ⟨str "call_skills_0", str "function", str "exec",
       [(str "command", ArgV.s (SKILL_MANAGER ++ str " list"))]⟩
     (by decide) (by decide) (by decide)⟩

/-! ## Claim C8 -/

/-- The part of the consensus command following the embedded
`OPENROUTER_API_KEY` value. -/
def consensusTailKey (tok p : Str) (chat : Option Str) : Str :=
  str "\x27 " ++
  (if tok ≠ [] then str "TELEGRAM_BOT_TOKEN=\x27" ++ tok ++ str "\x27" else []) ++
  str " node scripts/consensus.mjs --prompt \x27" ++ p ++ str "\x27" ++
  (match chat with
   | some c => if c ≠ [] then str " --chatId \x27" ++ c ++ str "\x27" else []
   | none => [])

/-- The part of the consensus command following the embedded
`TELEGRAM_BOT_TOKEN` value. -/
def consensusTailTok (p : Str) (chat : Option Str) : Str :=
  str "\x27" ++ str " node scripts/consensus.mjs --prompt \x27" ++ p ++ str "\x27" ++
  (match chat with
   | some c => if c ≠ [] then str " --chatId \x27" ++ c ++ str "\x27" else []
   | none => [])

/-- The consensus command splits around the embedded key. -/
theorem consensusCmd_key_split (ok tok p : Str) (chat : Option Str) :
    consensusCmd ok tok p chat
      = str "cd /data/.openclaw/skills/k-llm && OPENROUTER_API_KEY=\x27" ++ ok ++
        consensusTailKey tok p chat := by
  simp [consensusCmd, consensusTailKey, List.append_assoc]

/-- The consensus command splits around the embedded bot token, when the
token is set. -/
theorem consensusCmd_tok_split (ok tok p : Str) (chat : Option Str) (htok : tok ≠ []) :
    consensusCmd ok tok p chat
      = (str "cd /data/.openclaw/skills/k-llm && OPENROUTER_API_KEY=\x27" ++ ok ++
          str "\x27 " ++ str "TELEGRAM_BOT_TOKEN=\x27") ++ tok ++
        consensusTailTok p chat := by
  simp [consensusCmd, consensusTailTok, if_pos htok, List.append_assoc]

/-- The consensus command determines the `OPENROUTER_API_KEY` value: equal
commands built with the same token, prompt and chat id have equal keys. -/
theorem consensusCmd_key_inj (ok1 ok2 tok p : Str) (chat : Option Str)
    (h : consensusCmd ok1 tok p chat = consensusCmd ok2 tok p chat) : ok1 = ok2 := by
  simp only [consensusCmd, List.append_assoc] at h
  have h1 := List.append_cancel_left h
  exact List.append_cancel_right h1

/-- The consensus command determines the `TELEGRAM_BOT_TOKEN` value: equal
commands built with the same key, prompt and chat id have equal tokens. -/
theorem consensusCmd_tok_inj (ok tok1 tok2 p : Str) (chat : Option Str)
    (h : consensusCmd ok tok1 p chat = consensusCmd ok tok2 p chat) : tok1 = tok2 := by
  by_cases ht1 : tok1 = [] <;> by_cases ht2 : tok2 = []
  · rw [ht1, ht2]
  · exfalso
    rw [ht1] at h
    simp only [consensusCmd, if_neg (by simp : ¬(([] : Str) ≠ [])), if_pos ht2,
      List.append_assoc, List.nil_append] at h
    have hlen := congrArg List.length h
    simp only [List.length_append] at hlen
    have e1 : (str "TELEGRAM_BOT_TOKEN=\x27").length = 20 := rfl
    have e2 : (str "\x27").length = 1 := rfl
    omega
  · exfalso
    rw [ht2] at h
    simp only [consensusCmd, if_neg (by simp : ¬(([] : Str) ≠ [])), if_pos ht1,
      List.append_assoc, List.nil_append] at h
    have hlen := congrArg List.length h
    simp only [List.length_append] at hlen
    have e1 : (str "TELEGRAM_BOT_TOKEN=\x27").length = 20 := rfl
    have e2 : (str "\x27").length = 1 := rfl
    omega
  · simp only [consensusCmd, if_pos ht1, if_pos ht2, List.append_assoc] at h
    have h1 := List.append_cancel_left h
    have h2 := List.append_cancel_left h1
    have h3 := List.append_cancel_left h2
    have h4 := List.append_cancel_left h3
    exact List.append_cancel_right h4

/-- C8: whenever the consensus directive fires, the forced `exec` call’s
`command` argument embeds the process’s `OPENROUTER_API_KEY` value verbatim
(and the `TELEGRAM_BOT_TOKEN` value when set), and two runs differing only
in one of these credential values produce different command arguments. -/
theorem c8_consensus_embeds_credentials :
    (∀ (defs : List ToolDef) (chat : Option Str) (ok tok text cap : Str),
      defs ≠ [] → hasExecTool defs = true →
      fbSkillList (pystrip text) = none → fbEnable (pystrip text) = none →
      fbDisable (pystrip text) = none → fbXcite (lowerS (pystrip text)) = none →
      fbScout (lowerS (pystrip text)) = none →
      consensusExecMarkers.any (fun m => hasSub m text) = false →
      anchSearchCap consensusAlt (pystrip text) = some cap →
      fallback_tool_call text defs chat ok tok
        = some [⟨str "call_consensus_0", str "function", str "exec",
            [(str "command", ArgV.s (consensusCmd ok tok
               (pyReplace (pystrip cap) (str "\x27") (str "\x27\\\x27\x27")) chat)),
             (str "timeoutMs", ArgV.n 120000)]⟩]
      ∧ ok <:+: consensusCmd ok tok
          (pyReplace (pystrip cap) (str "\x27") (str "\x27\\\x27\x27")) chat
      ∧ (tok ≠ [] → tok <:+: consensusCmd ok tok
          (pyReplace (pystrip cap) (str "\x27") (str "\x27\\\x27\x27")) chat))
    ∧ (∀ (ok1 ok2 tok p : Str) (chat : Option Str), ok1 ≠ ok2 →
        consensusCmd ok1 tok p chat ≠ consensusCmd ok2 tok p chat)
    ∧ (∀ (ok tok1 tok2 p : Str) (chat : Option Str), tok1 ≠ tok2 →
        consensusCmd ok tok1 p chat ≠ consensusCmd ok tok2 p chat) := by
  refine ⟨?_, ?_, ?_⟩
  · intro defs chat ok tok text cap hd he h1 h2 h3 h4 h5 hmk hsrch
    refine ⟨?_, ?_, ?_⟩
    · unfold fallback_tool_call
      rw [if_neg hd, if_neg (by simp [he]), h1, h2, h3, h4, h5]
      unfold fbConsensus
      rw [if_neg (by simp [hmk]), hsrch]
    · exact ⟨str "cd /data/.openclaw/skills/k-llm && OPENROUTER_API_KEY=\x27",
        consensusTailKey tok (pyReplace (pystrip cap) (str "\x27") (str "\x27\\\x27\x27")) chat,
        (consensusCmd_key_split ok tok _ chat).symm⟩
    · intro htok
      exact ⟨str "cd /data/.openclaw/skills/k-llm && OPENROUTER_API_KEY=\x27" ++ ok ++
          str "\x27 " ++ str "TELEGRAM_BOT_TOKEN=\x27",
        consensusTailTok (pyReplace (pystrip cap) (str "\x27") (str "\x27\\\x27\x27")) chat,
        (consensusCmd_tok_split ok tok _ chat htok).symm⟩
  · intro ok1 ok2 tok p chat hne hcontra
    exact hne (consensusCmd_key_inj ok1 ok2 tok p chat hcontra)
  · intro ok tok1 tok2 p chat hne hcontra
    exact hne (consensusCmd_tok_inj ok tok1 tok2 p chat hcontra)

/-- Witness for `c8_consensus_embeds_credentials` at the text
`consensus: hello` with a concrete key, and at the backoff text
`consensus::` whose captured argument is the separator char `:` itself. -/
theorem c8_witness :
    (fallback_tool_call (str "consensus: hello") [synthExecDef] none (str "sk-or-KEY") []
        = some [⟨str "call_consensus_0", str "function", str "exec",
            [(str "command", ArgV.s (consensusCmd (str "sk-or-KEY") []
               (pyReplace (pystrip (str "hello")) (str "\x27") (str "\x27\\\x27\x27")) none)),
             (str "timeoutMs", ArgV.n 120000)]⟩]
      ∧ str "sk-or-KEY" <:+: consensusCmd (str "sk-or-KEY") []
          (pyReplace (pystrip (str "hello")) (str "\x27") (str "\x27\\\x27\x27")) none
      ∧ (([] : Str) ≠ [] → ([] : Str) <:+: consensusCmd (str "sk-or-KEY") []
          (pyReplace (pystrip (str "hello")) (str "\x27") (str "\x27\\\x27\x27")) none))
    ∧ fallback_tool_call (str "consensus::") [synthExecDef] none (str "sk-or-KEY") []
        = some [⟨str "call_consensus_0", str "function", str "exec",
            [(str "command", ArgV.s (consensusCmd (str "sk-or-KEY") []
               (pyReplace (pystrip (str ":")) (str "\x27") (str "\x27\\\x27\x27")) none)),
             (str "timeoutMs", ArgV.n 120000)]⟩]
    ∧ consensusCmd (str "k-one") [] (str "p") none
        ≠ consensusCmd (str "k-two") [] (str "p") none :=
  ⟨c8_consensus_embeds_credentials.1 [synthExecDef] none (str "sk-or-KEY") []
     (str "consensus: hello") (str "hello") (by decide) (by decide) (by decide)
     (by decide) (by decide) (by decide) (by decide) (by decide) (by decide),
   (c8_consensus_embeds_credentials.1 [synthExecDef] none (str "sk-or-KEY") []
     (str "consensus::") (str ":") (by decide) (by decide) (by decide)
     (by decide) (by decide) (by decide) (by decide) (by decide) (by decide)).1,
   c8_consensus_embeds_credentials.2.1 (str "k-one") (str "k-two") [] (str "p") none
     (by decide)⟩

end ModelProxy
